import Mathlib

/-!
# dpctl elementwise kernels: `bitwise_xor` and `equal`

A shallow embedding of
`dpctl/tensor/libtensor/include/kernels/elementwise_functions/bitwise_xor.hpp` and
`dpctl/tensor/libtensor/include/kernels/elementwise_functions/equal.hpp`:
the output-type tables, the factories that fill the dispatch tables, the
metadata-only type query, and the scalar and batch overloads of the two
compute functors.

C++ template parameters become ordinary arguments; a type-level result
(`value_type`) becomes a value of `ResultType`, where `none` stands for `void`.
-/

namespace Dpctl

/-! ## Element types and the type-map machinery -/

/-- Element types of tensor data: the C++ types that occur as `T1`, `T2`, `argT1`, `argT2`
and `resT` in the two headers (`bool`, `std::uint8_t`, ..., `sycl::half`, `float`, `double`,
`std::complex<float>`, `std::complex<double>`). -/
inductive ElemType where
  | bool
  | uint8
  | int8
  | uint16
  | int16
  | uint32
  | int32
  | uint64
  | int64
  | half
  | float
  | double
  | cfloat
  | cdouble
  deriving DecidableEq, Repr

/-- The result of a type-map resolution: `some T` is the element type `T`, and `none` is
`void`, the result type of `td_ns::DefaultResultEntry<void>` ("unsupported"). -/
abbrev ResultType := Option ElemType

/-- One alternative handed to `std::disjunction`: a compile-time boolean `value` together
with the member type `result_type`. -/
structure ResultEntry where
  value : Bool
  result_type : ResultType
  deriving DecidableEq, Repr

/-- Modelled from the spec: `td_ns::BinaryTypeMapResultEntry<Ty1, ArgTy1, Ty2, ArgTy2, ResTy>`
of `utils/type_dispatch.hpp`, which is not among the sources. It is the TypeMapEntry
"(tag A, tag B) → tag C": it matches structurally, by tag equality of `Ty1` with `ArgTy1`
and of `Ty2` with `ArgTy2`, and carries `ResTy` as its result type. -/
def BinaryTypeMapResultEntry (Ty1 ArgTy1 Ty2 ArgTy2 ResTy : ElemType) : ResultEntry :=
  { value := decide (Ty1 = ArgTy1) && decide (Ty2 = ArgTy2), result_type := some ResTy }

/-- Modelled from the spec: `td_ns::DefaultResultEntry<Ty>` of `utils/type_dispatch.hpp`,
which is not among the sources. It always matches and carries `Ty`; it closes every list, so
that a search without a structural match ends in the sentinel. -/
def DefaultResultEntry (Ty : ResultType) : ResultEntry :=
  { value := true, result_type := Ty }

/-- The C++17 `std::disjunction<B1, ..., BN>`: the first `Bi` whose `value` is true, and
`BN` itself when no `value` is true. (`std::disjunction<>` is `std::false_type`, which has no
`result_type`; the headers never use it.) -/
def disjunction : List ResultEntry → ResultEntry
  | [] => { value := false, result_type := none }
  | [b] => b
  | b :: b2 :: bs => if b.value then b else disjunction (b2 :: bs)

/-- Modelled from the spec: `tu_ns::is_complex<T>` of `utils/type_utils.hpp`, which is not
among the sources: true exactly for the single and double precision complex types. -/
def is_complex : ElemType → Bool
  | .cfloat => true
  | .cdouble => true
  | _ => false

/-! ## `bitwise_xor.hpp`: output type and factories -/

/-- The `BinaryTypeMapResultEntry` alternatives of `BitwiseXorOutputType<T1, T2>`, in
declaration order (bitwise_xor.hpp, lines 117-157). -/
def BitwiseXorOutputType.entries (T1 T2 : ElemType) : List ResultEntry :=
  [ BinaryTypeMapResultEntry T1 .bool T2 .bool .bool,
    BinaryTypeMapResultEntry T1 .uint8 T2 .uint8 .uint8,
    BinaryTypeMapResultEntry T1 .int8 T2 .int8 .int8,
    BinaryTypeMapResultEntry T1 .uint16 T2 .uint16 .uint16,
    BinaryTypeMapResultEntry T1 .int16 T2 .int16 .int16,
    BinaryTypeMapResultEntry T1 .uint32 T2 .uint32 .uint32,
    BinaryTypeMapResultEntry T1 .int32 T2 .int32 .int32,
    BinaryTypeMapResultEntry T1 .uint64 T2 .uint64 .uint64,
    BinaryTypeMapResultEntry T1 .int64 T2 .int64 .int64 ]

/-- `BitwiseXorOutputType<T1, T2>::value_type`: the `result_type` of the disjunction of the
nine entries followed by `DefaultResultEntry<void>`. -/
def BitwiseXorOutputType (T1 T2 : ElemType) : ResultType :=
  (disjunction (BitwiseXorOutputType.entries T1 T2 ++ [DefaultResultEntry none])).result_type

/-! ## `equal.hpp`: output type -/

/-- The `BinaryTypeMapResultEntry` alternatives of `EqualOutputType<T1, T2>`, in declaration
order (equal.hpp, lines 128-165). -/
def EqualOutputType.entries (T1 T2 : ElemType) : List ResultEntry :=
  [ BinaryTypeMapResultEntry T1 .bool T2 .bool .bool,
    BinaryTypeMapResultEntry T1 .uint8 T2 .uint8 .bool,
    BinaryTypeMapResultEntry T1 .int8 T2 .int8 .bool,
    BinaryTypeMapResultEntry T1 .uint16 T2 .uint16 .bool,
    BinaryTypeMapResultEntry T1 .int16 T2 .int16 .bool,
    BinaryTypeMapResultEntry T1 .uint32 T2 .uint32 .bool,
    BinaryTypeMapResultEntry T1 .int32 T2 .int32 .bool,
    BinaryTypeMapResultEntry T1 .uint64 T2 .uint64 .bool,
    BinaryTypeMapResultEntry T1 .int64 T2 .int64 .bool,
    BinaryTypeMapResultEntry T1 .half T2 .half .bool,
    BinaryTypeMapResultEntry T1 .float T2 .float .bool,
    BinaryTypeMapResultEntry T1 .double T2 .double .bool,
    BinaryTypeMapResultEntry T1 .cfloat T2 .cfloat .bool,
    BinaryTypeMapResultEntry T1 .cdouble T2 .cdouble .bool ]

/-- `EqualOutputType<T1, T2>::value_type`: the `result_type` of the disjunction of the
fourteen entries followed by `DefaultResultEntry<void>`. -/
def EqualOutputType (T1 T2 : ElemType) : ResultType :=
  (disjunction (EqualOutputType.entries T1 T2 ++ [DefaultResultEntry none])).result_type

/-! ## Factories and the metadata query -/

/-- The kernel entry points whose addresses the factories hand out: one instantiation
`..._impl<T1, T2>` per pair of argument types. -/
inductive KernelFn where
  | bitwise_xor_contig_impl (T1 T2 : ElemType)
  | bitwise_xor_strided_impl (T1 T2 : ElemType)
  | equal_contig_impl (T1 T2 : ElemType)
  | equal_strided_impl (T1 T2 : ElemType)
  deriving DecidableEq, Repr

/-- The function-pointer type `fnT` of a dispatch table: `none` is `nullptr`. -/
abbrev FnPtr := Option KernelFn

/-- `BitwiseXorContigFactory<fnT, T1, T2>::get()` (bitwise_xor.hpp, lines 186-202). -/
def BitwiseXorContigFactory.get (T1 T2 : ElemType) : FnPtr :=
  if BitwiseXorOutputType T1 T2 = none then none
  else some (KernelFn.bitwise_xor_contig_impl T1 T2)

/-- `BitwiseXorStridedFactory<fnT, T1, T2>::get()` (bitwise_xor.hpp, lines 241-258). -/
def BitwiseXorStridedFactory.get (T1 T2 : ElemType) : FnPtr :=
  if BitwiseXorOutputType T1 T2 = none then none
  else some (KernelFn.bitwise_xor_strided_impl T1 T2)

/-- `EqualContigFactory<fnT, T1, T2>::get()` (equal.hpp, lines 193-208). -/
def EqualContigFactory.get (T1 T2 : ElemType) : FnPtr :=
  if EqualOutputType T1 T2 = none then none
  else some (KernelFn.equal_contig_impl T1 T2)

/-- `EqualStridedFactory<fnT, T1, T2>::get()` (equal.hpp, lines 245-260). -/
def EqualStridedFactory.get (T1 T2 : ElemType) : FnPtr :=
  if EqualOutputType T1 T2 = none then none
  else some (KernelFn.equal_strided_impl T1 T2)

/-- Modelled from the spec: the enumeration `typenum_t` of `utils/type_dispatch.hpp`, which
is not among the sources: the ElementTypeTags in their enumeration order (boolean,
signed/unsigned integers of four widths, half/single/double float, single/double complex).
The position of a type in this list is its ordinal. -/
def typenum_order : List ElemType :=
  [ .bool, .int8, .uint8, .int16, .uint16, .int32, .uint32, .int64, .uint64,
    .half, .float, .double, .cfloat, .cdouble ]

/-- Modelled from the spec: `td_ns::num_types`, the number of ElementTypeTags. -/
def num_types : Nat := typenum_order.length

/-- Modelled from the spec: `td_ns::GetTypeid<T>::get()` of `utils/type_dispatch.hpp`, which
is not among the sources: the runtime tag value of a compile-time type. A real element type
has its ordinal; `void` has a value that is no ordinal ("unsupported", distinct from every
boolean or numeric result). -/
def GetTypeid : ResultType → Int
  | some T => (typenum_order.indexOf T : Nat)
  | none => -1

/-- `BitwiseXorTypeMapFactory<int, T1, T2>::get()` (bitwise_xor.hpp, lines 204-214). -/
def BitwiseXorTypeMapFactory.get (T1 T2 : ElemType) : Int :=
  GetTypeid (BitwiseXorOutputType T1 T2)

/-- `EqualTypeMapFactory<int, T1, T2>::get()` (equal.hpp, lines 210-218). -/
def EqualTypeMapFactory.get (T1 T2 : ElemType) : Int :=
  GetTypeid (EqualOutputType T1 T2)

/-- Modelled from the spec: `td_ns::DispatchTableBuilder<fnT, factory, num_types>` of
`utils/type_dispatch.hpp`, which is not among the sources: the two-dimensional table that
holds, at the ordinals of `T1` and `T2`, what `factory<fnT, T1, T2>::get()` returns. -/
def DispatchTableBuilder.populate_dispatch_table (factory : ElemType → ElemType → FnPtr) :
    List (List FnPtr) :=
  typenum_order.map fun T1 => typenum_order.map fun T2 => factory T1 T2

/-- Modelled from the spec: the line `using resTy = typename BinaryOutputType<argTy1,
argTy2>::value_type;` of `elementwise_common::binary_contig_impl` and of
`elementwise_common::binary_strided_impl` (`kernels/elementwise_functions/common.hpp`, not
among the sources): the result type with which the two execution strategies instantiate the
compute functor is the one that the output-type table handed to them gives. -/
def elementwise_common.resTy (BinaryOutputType : ElemType → ElemType → ResultType)
    (argTy1 argTy2 : ElemType) : ResultType :=
  BinaryOutputType argTy1 argTy2

/-! ## Scalar values of the boolean and integer element types

A value of `bool` or of an integer element type is its mathematical value, an `Int`:
`false` is 0 and `true` is 1, and a `w`-bit integer is the number its two's complement bit
pattern denotes. Conversions and the builtin operators are the C++ ones, written out with
explicit reduction modulo `2 ^ w`. -/

/-- The size of an element type in bits (`8 * sizeof(T)`). -/
def ElemType.bits : ElemType → Nat
  | .bool => 8
  | .uint8 => 8
  | .int8 => 8
  | .uint16 => 16
  | .int16 => 16
  | .half => 16
  | .uint32 => 32
  | .int32 => 32
  | .float => 32
  | .uint64 => 64
  | .int64 => 64
  | .double => 64
  | .cfloat => 64
  | .cdouble => 128

/-- The eight integer element types (`bool` is not one of them). -/
def ElemType.is_integer : ElemType → Bool
  | .uint8 => true
  | .int8 => true
  | .uint16 => true
  | .int16 => true
  | .uint32 => true
  | .int32 => true
  | .uint64 => true
  | .int64 => true
  | _ => false

/-- The signed integer element types. -/
def ElemType.is_signed : ElemType → Bool
  | .int8 => true
  | .int16 => true
  | .int32 => true
  | .int64 => true
  | _ => false

/-- The values of type `T`, for `T` boolean or integer: 0 and 1 for `bool`,
`-2^(w-1) .. 2^(w-1) - 1` for a signed and `0 .. 2^w - 1` for an unsigned `w`-bit type. -/
def InRange (T : ElemType) (v : Int) : Prop :=
  if T = .bool then 0 ≤ v ∧ v ≤ 1
  else if T.is_signed = true then -(2 ^ (T.bits - 1) : Int) ≤ v ∧ v < 2 ^ (T.bits - 1)
  else 0 ≤ v ∧ v < 2 ^ T.bits

instance (T : ElemType) (v : Int) : Decidable (InRange T v) := by
  unfold InRange
  infer_instance

/-- The `bool` value as an integer: `true` is 1 and `false` is 0. -/
def ofBool (b : Bool) : Int := if b then 1 else 0

/-- The `w`-bit two's complement pattern of `v`, as a natural number below `2 ^ w`. -/
def toBits (w : Nat) (v : Int) : Nat := (v % 2 ^ w).toNat

/-- The value that the bit pattern `p` denotes at the integer type `T`: for a signed type a
pattern with the top bit set denotes `p - 2 ^ w`. -/
def ofBits (T : ElemType) (p : Nat) : Int :=
  if T.is_signed = true ∧ 2 ^ (T.bits - 1) ≤ p then (p : Int) - 2 ^ T.bits else (p : Int)

/-- Conversion of an integer value to type `T` (an implicit conversion or `static_cast<T>`):
to `bool` it is the test against zero, to an integer type it keeps the low `w` bits. -/
def convert (T : ElemType) (v : Int) : Int :=
  if T = .bool then ofBool (decide (v ≠ 0)) else ofBits T (toBits T.bits v)

/-- Integral promotion: `bool` and the 8- and 16-bit types are promoted to `int`
(`std::int32_t`); the 32- and 64-bit types are kept. -/
def promote : ElemType → ElemType
  | .bool => .int32
  | .uint8 => .int32
  | .int8 => .int32
  | .uint16 => .int32
  | .int16 => .int32
  | T => T

/-- The builtin `a ^ b` on two operands of the (promoted) integer type `P`: the value of
type `P` whose bit pattern is the exclusive or of the two patterns. -/
def builtin_xor (P : ElemType) (a b : Int) : Int :=
  ofBits P (toBits P.bits a ^^^ toBits P.bits b)

/-- The builtin `a == b` on two operands of the same boolean or integer type `T`: both are
promoted, and the promoted values are compared. -/
def builtin_eq (T : ElemType) (a b : Int) : Bool :=
  decide (convert (promote T) a = convert (promote T) b)

/-- The builtin `a != b` on two operands of the same boolean or integer type `T`. -/
def builtin_ne (T : ElemType) (a b : Int) : Bool :=
  decide (convert (promote T) a ≠ convert (promote T) b)

/-! ## `sycl::vec`

`sycl::vec<T, vec_sz>` is a fixed-size batch of `vec_sz` lanes. The operators below are those
of the SYCL library on such batches. -/

/-- A batch `sycl::vec<T, vec_sz>` of boolean or integer lanes: lane `i` is `v i`. -/
abbrev sycl.vec (vec_sz : Nat) := Fin vec_sz → Int

/-- The element type of the result of a relational operator on `sycl::vec<T, vec_sz>`: the
signed integer type of the size of `T`. -/
def sycl.rel_t : ElemType → ElemType
  | .bool => .int8
  | .uint8 => .int8
  | .int8 => .int8
  | .uint16 => .int16
  | .int16 => .int16
  | .half => .int16
  | .uint32 => .int32
  | .int32 => .int32
  | .float => .int32
  | _ => .int64

/-- The operator `^` of `sycl::vec<T, vec_sz>`, lane by lane at the element type `T` itself:
each lane of the result has the exclusive or of the two lanes' bit patterns. -/
def sycl.vec.xor (T : ElemType) {vec_sz : Nat} (x y : sycl.vec vec_sz) : sycl.vec vec_sz :=
  fun i => ofBits T (toBits T.bits (x i) ^^^ toBits T.bits (y i))

/-- The operator `==` of `sycl::vec<T, vec_sz>`: a batch of `sycl.rel_t T` lanes, -1 (all
bits set) where the comparison `eq` of the two lanes holds and 0 where it does not. -/
def sycl.vec.eq {α : Type} (eq : α → α → Bool) {vec_sz : Nat} (x y : Fin vec_sz → α) :
    sycl.vec vec_sz :=
  fun i => if eq (x i) (y i) = true then -1 else 0

/-- The operator `!=` of `sycl::vec<T, vec_sz>`: a batch of `sycl.rel_t T` lanes, -1 (all
bits set) where the two lanes differ under `eq` and 0 where they do not. -/
def sycl.vec.ne {α : Type} (eq : α → α → Bool) {vec_sz : Nat} (x y : Fin vec_sz → α) :
    sycl.vec vec_sz :=
  fun i => if eq (x i) (y i) = true then 0 else -1

/-- The comparison of two boolean or integer lanes of one type inside a vector comparison:
the lanes are compared as they are. -/
def sycl.lane_eq (a b : Int) : Bool := decide (a = b)

/-- Modelled from the spec: `tu_ns::vec_cast<dstT, srcT, vec_sz>` of `utils/type_utils.hpp`,
which is not among the sources: the batch itself when the two element types agree, and
otherwise the batch whose lanes are the lanes of `v` converted to `dstT`. -/
def vec_cast (dstT srcT : ElemType) {vec_sz : Nat} (v : sycl.vec vec_sz) : sycl.vec vec_sz :=
  if srcT = dstT then v else fun i => convert dstT (v i)

/-! ## The compute functors -/

/-- `BitwiseXorFunctor<argT1, argT2, resT>::supports_sg_loadstore`, `std::true_type`
(bitwise_xor.hpp, line 57). -/
def BitwiseXorFunctor.supports_sg_loadstore (_argT1 _argT2 : ElemType) : Bool := true

/-- `BitwiseXorFunctor<argT1, argT2, resT>::supports_vec`, `std::true_type`
(bitwise_xor.hpp, line 58). -/
def BitwiseXorFunctor.supports_vec (_argT1 _argT2 : ElemType) : Bool := true

/-- The scalar `BitwiseXorFunctor<argT1, argT2, resT>::operator()` (bitwise_xor.hpp, lines
60-70); the two `static_assert`s make `argT1` and `argT2` equal to `resT`. For `bool` it
returns `in1 != in2`; otherwise it returns `in1 ^ in2`, computed on the promoted operands
and converted to `resT` by the `return`. -/
def BitwiseXorFunctor.call (resT : ElemType) (in1 in2 : Int) : Int :=
  if resT = .bool then ofBool (builtin_ne resT in1 in2)
  else convert resT
    (builtin_xor (promote resT) (convert (promote resT) in1) (convert (promote resT) in2))

/-- The batch `BitwiseXorFunctor<argT1, argT2, resT>::operator()` on `sycl::vec` operands
(bitwise_xor.hpp, lines 72-88). -/
def BitwiseXorFunctor.vec (resT : ElemType) {vec_sz : Nat} (in1 in2 : sycl.vec vec_sz) :
    sycl.vec vec_sz :=
  if resT = .bool then
    let tmp := sycl.vec.ne sycl.lane_eq in1 in2
    vec_cast resT (sycl.rel_t resT) tmp
  else sycl.vec.xor resT in1 in2

/-- `EqualFunctor<argT1, argT2, resT>::supports_sg_loadstore` (equal.hpp, lines 57-58). -/
def EqualFunctor.supports_sg_loadstore (argT1 argT2 : ElemType) : Bool :=
  !(is_complex argT1 || is_complex argT2)

/-- `EqualFunctor<argT1, argT2, resT>::supports_vec` (equal.hpp, lines 59-62). -/
def EqualFunctor.supports_vec (argT1 argT2 : ElemType) : Bool :=
  decide (argT1 = argT2) && !(is_complex argT1 || is_complex argT2)

/-- The scalar `EqualFunctor<argT1, argT2, bool>::operator()` (equal.hpp, lines 64-82):
every branch returns the `==` of the two operands, `return (in1 == in2);` for non-complex
operands. The comparison `eq` is the `==` of the operand type: `builtin_eq T` for a boolean
or integer type `T`, the IEEE comparison for a floating-point type, the comparison of the
complex library for a complex type. -/
def EqualFunctor.call {α : Type} (eq : α → α → Bool) (in1 in2 : α) : Int :=
  ofBool (eq in1 in2)

/-- The batch `EqualFunctor<argT1, argT2, bool>::operator()` on `sycl::vec` operands of
element type `argT` (equal.hpp, lines 84-100): the lane mask `in1 == in2` is returned as it
is when its element type is already `bool`, and is cast to `bool` otherwise. The lane
comparison `eq` is `sycl.lane_eq` for a boolean or integer type, the IEEE comparison for a
floating-point type. -/
def EqualFunctor.vec {α : Type} (argT : ElemType) (eq : α → α → Bool) {vec_sz : Nat}
    (in1 in2 : Fin vec_sz → α) : sycl.vec vec_sz :=
  let tmp := sycl.vec.eq eq in1 in2
  if ElemType.bool = sycl.rel_t argT then tmp
  else vec_cast .bool (sycl.rel_t argT) tmp

/-! ## Execution strategies

The two execution strategies live in `kernels/elementwise_functions/common.hpp` and
`utils/offset_utils.hpp`, which are not among the sources; they are modelled from sections
4.3 and 4.4 of the specification. An operand buffer is a function from element addresses
(relative to the operand pointer) to values, and a launch yields the list of its writes
`(address, value)` in the order of the work-item ids. -/

/-- A compute functor as the execution strategies see it: the two capability flags, the
scalar overload and the batch overload of `operator()`. The operands are values of `α`
(`Int` for the boolean and integer element types); the result is boolean or integer. -/
structure BinaryOperatorT (α : Type) where
  supports_sg_loadstore : Bool
  supports_vec : Bool
  call : α → α → Int
  vec : (vec_sz : Nat) → (Fin vec_sz → α) → (Fin vec_sz → α) → sycl.vec vec_sz

/-- `BitwiseXorFunctor<argT1, argT2, resT>` as a compute functor (bitwise_xor.hpp, lines
51-89). -/
def BitwiseXorFunctor.instantiate (argT1 argT2 resT : ElemType) : BinaryOperatorT Int :=
  { supports_sg_loadstore := BitwiseXorFunctor.supports_sg_loadstore argT1 argT2
    supports_vec := BitwiseXorFunctor.supports_vec argT1 argT2
    call := BitwiseXorFunctor.call resT
    vec := fun _ => BitwiseXorFunctor.vec resT }

/-- `EqualFunctor<argT1, argT2, resT>` as a compute functor (equal.hpp, lines 53-101), for
operands of one boolean or integer type: the output-type table resolves only same-type
pairs, so the entry points instantiate it with `argT1 = argT2` only. -/
def EqualFunctor.instantiate (argT1 argT2 _resT : ElemType) : BinaryOperatorT Int :=
  { supports_sg_loadstore := EqualFunctor.supports_sg_loadstore argT1 argT2
    supports_vec := EqualFunctor.supports_vec argT1 argT2
    call := EqualFunctor.call (builtin_eq argT1)
    vec := fun _ => EqualFunctor.vec argT1 sycl.lane_eq }

/-- `EqualFunctor<argT1, argT2, resT>` as a compute functor (equal.hpp, lines 53-101), for
operands of one floating-point or complex type: the values `F` of the type and its
comparison `feq` (the `==` of `sycl::half`, `float`, `double` or of a complex type, which
the scalar overload and the lanes of the batch overload both use) are parameters. -/
def EqualFunctor.instantiate_fp {F : Type} (feq : F → F → Bool)
    (argT1 argT2 _resT : ElemType) : BinaryOperatorT F :=
  { supports_sg_loadstore := EqualFunctor.supports_sg_loadstore argT1 argT2
    supports_vec := EqualFunctor.supports_vec argT1 argT2
    call := EqualFunctor.call feq
    vec := fun _ => EqualFunctor.vec argT1 feq }

/-- Modelled from the spec: the unravelling of a linear work-item id into a multi-index over
the shared shape, in row-major order (section 4.4; `utils/offset_utils.hpp` is not among the
sources). Rank 0 gives the empty multi-index. -/
def unravel : List Nat → Nat → List Nat
  | [], _ => []
  | s :: shape, i => (i / shape.prod) % s :: unravel shape (i % shape.prod)

/-- The strides of a C-contiguous (row-major) array of the given shape: the stride of an
axis is the product of the extents of the axes after it. -/
def c_contiguous_strides : List Nat → List Int
  | [] => []
  | _ :: shape => (shape.prod : Int) :: c_contiguous_strides shape

/-- A multi-index lies inside a shape: it has one entry per axis, each below the extent of
its axis. -/
def in_shape : List Nat → List Nat → Bool
  | [], [] => true
  | s :: shape, i :: idx => decide (i < s) && in_shape shape idx
  | _, _ => false

/-- The row-major (C order) rank of a multi-index inside a shape: the position of its
element when the elements are listed with the last axis varying fastest, which is its
position in a flat unit-stride copy. -/
def row_major_index : List Nat → List Nat → Nat
  | _ :: shape, i :: idx => i * shape.prod + row_major_index shape idx
  | _, _ => 0

/-- Modelled from the spec: the dot product of a multi-index with the signed strides of one
operand (section 4.4). -/
def dot (idx : List Nat) (strides : List Int) : Int :=
  (List.zipWith (fun (i : Nat) (s : Int) => (i : Int) * s) idx strides).sum

/-- Modelled from the spec: the launch of `elementwise_common::BinaryStridedFunctor` with
the compute functor `op` (section 4.4; `common.hpp` is not among the sources). Work-item `i`
unravels `i` over the shape, addresses each operand at its offset plus the dot product of the
multi-index with that operand's strides, and writes the scalar functor's result. -/
def BinaryStridedFunctor.run {α : Type} (op : BinaryOperatorT α) (nelems : Nat)
    (shape : List Nat) (arg1_strides arg2_strides res_strides : List Int)
    (arg1 : Int → α) (arg1_offset : Int) (arg2 : Int → α) (arg2_offset : Int)
    (res_offset : Int) : List (Int × Int) :=
  (List.range nelems).map fun i =>
    let idx := unravel shape i
    (res_offset + dot idx res_strides,
      op.call (arg1 (arg1_offset + dot idx arg1_strides))
        (arg2 (arg2_offset + dot idx arg2_strides)))

/-- Modelled from the spec: `elementwise_common::binary_strided_impl` (section 4.4;
`common.hpp` is not among the sources): it resolves `resTy` from the output-type table it is
given and launches the strided functor over the compute functor instantiated with
`argTy1`, `argTy2` and `resTy`. There is no instantiation when the output type does not
resolve. -/
def binary_strided_impl {α : Type} (BinaryOutputType : ElemType → ElemType → ResultType)
    (BinaryOperator : ElemType → ElemType → ElemType → BinaryOperatorT α)
    (argTy1 argTy2 : ElemType) (nelems : Nat) (shape : List Nat)
    (arg1_strides arg2_strides res_strides : List Int)
    (arg1 : Int → α) (arg1_offset : Int) (arg2 : Int → α) (arg2_offset : Int)
    (res_offset : Int) : Option (List (Int × Int)) :=
  match elementwise_common.resTy BinaryOutputType argTy1 argTy2 with
  | none => none
  | some resTy =>
    some (BinaryStridedFunctor.run (BinaryOperator argTy1 argTy2 resTy) nelems shape
      arg1_strides arg2_strides res_strides arg1 arg1_offset arg2 arg2_offset res_offset)

/-- Modelled from the spec: the value that `elementwise_common::BinaryContigFunctor` computes
for output element `k` (section 4.3; `common.hpp` is not among the sources). A sub-group of
`sgSize` lanes owns `n_vecs * vec_sz * sgSize` consecutive elements. When both capability
flags hold and the sub-group's elements are all below `nelems`, element `k` is lane
`k % vec_sz` of the batch overload applied to the aligned batches that contain `k`;
otherwise (flags off, or tail) it is the scalar overload applied to the two elements. -/
def BinaryContigFunctor.elem {α : Type} (op : BinaryOperatorT α)
    (vec_sz n_vecs sgSize nelems : Nat) (in1 in2 : Nat → α) (k : Nat) : Int :=
  if h : 0 < vec_sz ∧ op.supports_sg_loadstore = true ∧ op.supports_vec = true ∧
      (k / (n_vecs * vec_sz * sgSize) + 1) * (n_vecs * vec_sz * sgSize) ≤ nelems then
    op.vec vec_sz (fun j => in1 (k / vec_sz * vec_sz + j.val))
      (fun j => in2 (k / vec_sz * vec_sz + j.val)) ⟨k % vec_sz, Nat.mod_lt k h.1⟩
  else op.call (in1 k) (in2 k)

/-- Modelled from the spec: the launch of `elementwise_common::BinaryContigFunctor` with the
compute functor `op` (section 4.3; `common.hpp` is not among the sources): `nelems` outputs
over flat unit-stride buffers, output `k` written at `res_offset + k`. -/
def BinaryContigFunctor.run {α : Type} (op : BinaryOperatorT α)
    (vec_sz n_vecs sgSize nelems : Nat)
    (arg1 : Int → α) (arg1_offset : Int) (arg2 : Int → α) (arg2_offset : Int)
    (res_offset : Int) : List (Int × Int) :=
  (List.range nelems).map fun (k : Nat) =>
    (res_offset + (k : Int),
      BinaryContigFunctor.elem op vec_sz n_vecs sgSize nelems
        (fun (j : Nat) => arg1 (arg1_offset + (j : Int)))
        (fun (j : Nat) => arg2 (arg2_offset + (j : Int))) k)

/-- Modelled from the spec: `elementwise_common::binary_contig_impl` (section 4.3;
`common.hpp` is not among the sources): it resolves `resTy` from the output-type table it is
given and launches the contiguous functor over the compute functor instantiated with
`argTy1`, `argTy2` and `resTy`. There is no instantiation when the output type does not
resolve. -/
def binary_contig_impl {α : Type} (BinaryOutputType : ElemType → ElemType → ResultType)
    (BinaryOperator : ElemType → ElemType → ElemType → BinaryOperatorT α)
    (argTy1 argTy2 : ElemType) (vec_sz n_vecs sgSize nelems : Nat)
    (arg1 : Int → α) (arg1_offset : Int) (arg2 : Int → α) (arg2_offset : Int)
    (res_offset : Int) : Option (List (Int × Int)) :=
  match elementwise_common.resTy BinaryOutputType argTy1 argTy2 with
  | none => none
  | some resTy =>
    some (BinaryContigFunctor.run (BinaryOperator argTy1 argTy2 resTy) vec_sz n_vecs sgSize
      nelems arg1 arg1_offset arg2 arg2_offset res_offset)

/-- `bitwise_xor_contig_impl<argTy1, argTy2>` (bitwise_xor.hpp, lines 168-184), with the
default `vec_sz = 4` and `n_vecs = 2` of `BitwiseXorContigFunctor`; `sgSize` is the width of
a sub-group on the device. -/
def bitwise_xor_contig_impl (argTy1 argTy2 : ElemType) (sgSize nelems : Nat)
    (arg1 : Int → Int) (arg1_offset : Int) (arg2 : Int → Int) (arg2_offset : Int)
    (res_offset : Int) : Option (List (Int × Int)) :=
  binary_contig_impl BitwiseXorOutputType BitwiseXorFunctor.instantiate argTy1 argTy2 4 2
    sgSize nelems arg1 arg1_offset arg2 arg2_offset res_offset

/-- `bitwise_xor_strided_impl<argTy1, argTy2>` (bitwise_xor.hpp, lines 219-239); the packed
`shape_and_strides` is given as the shape and the three stride vectors. -/
def bitwise_xor_strided_impl (argTy1 argTy2 : ElemType) (nelems : Nat) (shape : List Nat)
    (arg1_strides arg2_strides res_strides : List Int)
    (arg1 : Int → Int) (arg1_offset : Int) (arg2 : Int → Int) (arg2_offset : Int)
    (res_offset : Int) : Option (List (Int × Int)) :=
  binary_strided_impl BitwiseXorOutputType BitwiseXorFunctor.instantiate argTy1 argTy2 nelems
    shape arg1_strides arg2_strides res_strides arg1 arg1_offset arg2 arg2_offset res_offset

/-- `equal_contig_impl<argTy1, argTy2>` (equal.hpp, lines 176-191), with the default
`vec_sz = 4` and `n_vecs = 2` of `EqualContigFunctor`; `sgSize` is the width of a sub-group
on the device. -/
def equal_contig_impl (argTy1 argTy2 : ElemType) (sgSize nelems : Nat)
    (arg1 : Int → Int) (arg1_offset : Int) (arg2 : Int → Int) (arg2_offset : Int)
    (res_offset : Int) : Option (List (Int × Int)) :=
  binary_contig_impl EqualOutputType EqualFunctor.instantiate argTy1 argTy2 4 2
    sgSize nelems arg1 arg1_offset arg2 arg2_offset res_offset

/-- `equal_strided_impl<argTy1, argTy2>` (equal.hpp, lines 223-243); the packed
`shape_and_strides` is given as the shape and the three stride vectors. -/
def equal_strided_impl (argTy1 argTy2 : ElemType) (nelems : Nat) (shape : List Nat)
    (arg1_strides arg2_strides res_strides : List Int)
    (arg1 : Int → Int) (arg1_offset : Int) (arg2 : Int → Int) (arg2_offset : Int)
    (res_offset : Int) : Option (List (Int × Int)) :=
  binary_strided_impl EqualOutputType EqualFunctor.instantiate argTy1 argTy2 nelems
    shape arg1_strides arg2_strides res_strides arg1 arg1_offset arg2 arg2_offset res_offset

/-- `equal_contig_impl<argTy1, argTy2>` (equal.hpp, lines 176-191) on operands of a
floating-point or complex type, with the values `F` and the comparison `feq` of that type as
parameters. -/
def equal_contig_impl_fp {F : Type} (feq : F → F → Bool) (argTy1 argTy2 : ElemType)
    (sgSize nelems : Nat) (arg1 : Int → F) (arg1_offset : Int) (arg2 : Int → F)
    (arg2_offset : Int) (res_offset : Int) : Option (List (Int × Int)) :=
  binary_contig_impl EqualOutputType (EqualFunctor.instantiate_fp feq) argTy1 argTy2 4 2
    sgSize nelems arg1 arg1_offset arg2 arg2_offset res_offset

/-- `equal_strided_impl<argTy1, argTy2>` (equal.hpp, lines 223-243) on operands of a
floating-point or complex type, with the values `F` and the comparison `feq` of that type as
parameters. -/
def equal_strided_impl_fp {F : Type} (feq : F → F → Bool) (argTy1 argTy2 : ElemType)
    (nelems : Nat) (shape : List Nat) (arg1_strides arg2_strides res_strides : List Int)
    (arg1 : Int → F) (arg1_offset : Int) (arg2 : Int → F) (arg2_offset : Int)
    (res_offset : Int) : Option (List (Int × Int)) :=
  binary_strided_impl EqualOutputType (EqualFunctor.instantiate_fp feq) argTy1 argTy2 nelems
    shape arg1_strides arg2_strides res_strides arg1 arg1_offset arg2 arg2_offset res_offset

/-- A strided launch and a contiguous launch over one shape produce the same output: both
take place and write `shape.prod` results, the values agree write by write, and for every
multi-index `idx` inside the shape the write of rank `row_major_index shape idx` carries
`value` of that rank in both launches, going to element `idx` of the strided result operand
(offset `res_offset`, strides `res_strides`) in the strided launch and to the flat position
of that rank after `flat_offset` in the contiguous launch. -/
def SameOutput (shape : List Nat) (res_offset : Int) (res_strides : List Int)
    (flat_offset : Int) (value : Nat → Int)
    (strided contig : Option (List (Int × Int))) : Prop :=
  ∃ ws wc : List (Int × Int),
    strided = some ws ∧ contig = some wc ∧
    ws.length = shape.prod ∧ wc.length = shape.prod ∧
    ws.map Prod.snd = wc.map Prod.snd ∧
    ∀ idx : List Nat, in_shape shape idx = true →
      ws.get? (row_major_index shape idx) =
        some (res_offset + dot idx res_strides, value (row_major_index shape idx)) ∧
      wc.get? (row_major_index shape idx) =
        some (flat_offset + (row_major_index shape idx : Int),
          value (row_major_index shape idx))

/-- The buffer that holds the array `a` from address 0 on (0 elsewhere). -/
def buffer (a : List Int) : Int → Int :=
  fun i => if 0 ≤ i then a.getD i.toNat 0 else 0

/-! ## `radix_sort.cpp`: the dispatch vectors -/

/-- The sorting kernel entry points: the instantiation
`radix_sort_axis1_contig_impl<argTy, ascending>` for an element type and a direction. -/
inductive SortFn where
  | radix_sort_axis1_contig_impl (argTy : ElemType) (ascending : Bool)
  deriving DecidableEq, Repr

/-- The function-pointer type `sort_contig_fn_ptr_t`: `none` is `nullptr`. -/
abbrev sort_contig_fn_ptr_t := Option SortFn

/-- `AscendingRadixSortContigFactory<fnT, argTy>::get()` (radix_sort.cpp, lines 64-76). The
trait `RadixSortSupportVector<argTy>::is_defined` is declared in `radix_sort_support.hpp`,
which is not among the sources; it is the parameter `is_defined`. -/
def AscendingRadixSortContigFactory.get (is_defined : ElemType → Bool) (argTy : ElemType) :
    sort_contig_fn_ptr_t :=
  if is_defined argTy = true then some (SortFn.radix_sort_axis1_contig_impl argTy true)
  else none

/-- `DescendingRadixSortContigFactory<fnT, argTy>::get()` (radix_sort.cpp, lines 78-90), with
the same parameter `is_defined`. -/
def DescendingRadixSortContigFactory.get (is_defined : ElemType → Bool) (argTy : ElemType) :
    sort_contig_fn_ptr_t :=
  if is_defined argTy = true then some (SortFn.radix_sort_axis1_contig_impl argTy false)
  else none

/-- Modelled from the spec: `td_ns::DispatchVectorBuilder<fnT, factory,
num_types>::populate_dispatch_vector` of `utils/type_dispatch.hpp`, which is not among the
sources: the vector that holds, at the ordinal of each element type, what the factory
returns for that type. -/
def DispatchVectorBuilder.populate_dispatch_vector
    (factory : ElemType → sort_contig_fn_ptr_t) : List sort_contig_fn_ptr_t :=
  typenum_order.map factory

/-- The two static dispatch vectors of radix_sort.cpp (lines 59-62). -/
structure RadixSortDispatchVectors where
  ascending_radix_sort_contig_dispatch_vector : List sort_contig_fn_ptr_t
  descending_radix_sort_contig_dispatch_vector : List sort_contig_fn_ptr_t

/-- `init_radix_sort_dispatch_vectors` (radix_sort.cpp, lines 92-106): the state of the two
static vectors after the call. -/
def init_radix_sort_dispatch_vectors (is_defined : ElemType → Bool) :
    RadixSortDispatchVectors :=
  { ascending_radix_sort_contig_dispatch_vector :=
      DispatchVectorBuilder.populate_dispatch_vector
        (AscendingRadixSortContigFactory.get is_defined)
    descending_radix_sort_contig_dispatch_vector :=
      DispatchVectorBuilder.populate_dispatch_vector
        (DescendingRadixSortContigFactory.get is_defined) }

/-! ## `pybind11_example.cpp`: `offloaded_array_mod` -/

/-- How a call ends: with a returned value, with a thrown `std::runtime_error` carrying a
message, or in undefined behaviour. -/
inductive Outcome (α : Type) where
  | ok (value : α)
  | runtime_error (what : String)
  | undefined
  deriving DecidableEq, Repr

/-- A NumPy array of `int64_t` in C order, as `py::array_t<int64_t, py::array::c_style>`
presents it through `request()`: the number of dimensions and the elements in memory order
(`size` is their number). -/
structure PyArray where
  ndim : Nat
  data : List Int
  deriving DecidableEq, Repr

/-- The builtin `a % b` on two `int64_t` operands: undefined when `b` is zero and when the
quotient is not representable (`INT64_MIN % -1`), and otherwise the remainder of the
division that truncates towards zero. -/
def int64_rem (a b : Int) : Option Int :=
  if b = 0 then none
  else if a = -(2 ^ 63 : Int) ∧ b = -1 then none
  else some (Int.tmod a b)

/-- The two host buffers the kernel of `offloaded_array_mod` works on: `a_buf` over the
input array and `r_buf` over the result array. -/
structure ModBuffers where
  a_buf : List Int
  r_buf : List Int
  deriving DecidableEq, Repr

/-- The kernel body at work-item `idx` (pybind11_example.cpp, lines 105-107):
`r_acc[idx] = a_acc[idx] % mod;`. It reads `a_buf`, and writes `r_buf` only. -/
def offloaded_array_mod.kernel (mod : Int) (bufs : ModBuffers) (idx : Nat) :
    Option ModBuffers :=
  match bufs.a_buf[idx]? with
  | none => none
  | some x =>
    match int64_rem x mod with
    | none => none
    | some v =>
      if idx < bufs.r_buf.length then some { bufs with r_buf := bufs.r_buf.set idx v }
      else none

/-- The launch `cgh.parallel_for(sycl::range<1>(n), ...)`: the kernel body runs once for
every `idx` below `n`; the work-items are independent, and are run here in increasing
order. -/
def offloaded_array_mod.parallel_for (n : Nat) (mod : Int) (bufs : ModBuffers) :
    Option ModBuffers :=
  (List.range n).foldlM (offloaded_array_mod.kernel mod) bufs

/-- `offloaded_array_mod(queue, array, mod)` (pybind11_example.cpp, lines 60-113).
`queue_is_SyclQueue` is the outcome of `PyObject_TypeCheck(queue_pycapi, &PySyclQueueType)`;
`uninit` is the content of the freshly allocated result array `py::array_t<int64_t>(n)`.
A normal return gives the input array as it is after the call together with the returned
array. -/
def offloaded_array_mod (queue_is_SyclQueue : Bool) (array : PyArray) (mod : Int)
    (uninit : Nat → Int) : Outcome (PyArray × PyArray) :=
  if queue_is_SyclQueue = false then
    Outcome.runtime_error "expected dpctl.SyclQueue as argument"
  else if array.ndim ≠ 1 then Outcome.runtime_error "Expecting a vector"
  else if mod ≤ 0 then Outcome.runtime_error "Modulus must be non-negative"
  else
    let n := array.data.length
    let res := (List.range n).map uninit
    match offloaded_array_mod.parallel_for n mod { a_buf := array.data, r_buf := res } with
    | none => Outcome.undefined
    | some bufs =>
      Outcome.ok ({ ndim := array.ndim, data := bufs.a_buf }, { ndim := 1, data := bufs.r_buf })

/-! ## Output-type tables -/

/-- Closed form of the bitwise_xor table: the diagonal over `bool` and the eight integer
types. -/
theorem BitwiseXorOutputType_eq (T1 T2 : ElemType) :
    BitwiseXorOutputType T1 T2 =
      if T1 = T2 ∧ T1 ∈ [ElemType.bool, .uint8, .int8, .uint16, .int16, .uint32, .int32,
        .uint64, .int64] then some T1 else none := by
  cases T1 <;> cases T2 <;> decide

/-- Closed form of the equal table: `bool` on the diagonal, `void` off it. -/
theorem EqualOutputType_eq (T1 T2 : ElemType) :
    EqualOutputType T1 T2 = if T1 = T2 then some ElemType.bool else none := by
  cases T1 <;> cases T2 <;> decide

/-- When no alternative before the closing `DefaultResultEntry<void>` matches, the
disjunction is that default entry. -/
theorem disjunction_default (bs : List ResultEntry) (h : ∀ e ∈ bs, e.value = false) :
    disjunction (bs ++ [DefaultResultEntry none]) = DefaultResultEntry none := by
  induction bs with
  | nil => rfl
  | cons b bs ih =>
    have hb : b.value = false := h b (List.mem_cons_self _ _)
    have ih2 := ih (fun e he => h e (List.mem_cons_of_mem _ he))
    cases bs with
    | nil => simp [disjunction, hb]
    | cons c cs =>
      simp only [List.cons_append, disjunction, hb] at ih2 ⊢
      simpa using ih2

/-- C1: `BitwiseXorOutputType<T1, T2>` is exactly the diagonal table over the nine
boolean/integer types: it is `T` when `T1 = T2 = T` and `T` is one of `bool`, `uint8`,
`int8`, `uint16`, `int16`, `uint32`, `int32`, `uint64`, `int64`, and it is `void` for every
other pair (any pair with a floating-point or complex operand, any pair of two different
types); whenever it resolves, the result type is identical to both operand types. -/
theorem BitwiseXorOutputType_diagonal (T1 T2 : ElemType) :
    (BitwiseXorOutputType T1 T2 =
      if T1 = T2 ∧ T1 ∈ [ElemType.bool, .uint8, .int8, .uint16, .int16, .uint32, .int32,
        .uint64, .int64] then some T1 else none) ∧
    (T1 ∈ [ElemType.half, .float, .double, .cfloat, .cdouble] ∨
      T2 ∈ [ElemType.half, .float, .double, .cfloat, .cdouble] →
        BitwiseXorOutputType T1 T2 = none) ∧
    (T1 ≠ T2 → BitwiseXorOutputType T1 T2 = none) ∧
    (∀ R, BitwiseXorOutputType T1 T2 = some R → R = T1 ∧ R = T2) := by
  refine ⟨BitwiseXorOutputType_eq T1 T2, ?_, ?_, ?_⟩
  · cases T1 <;> cases T2 <;> decide
  · cases T1 <;> cases T2 <;> decide
  · intro R h
    rw [BitwiseXorOutputType_eq] at h
    split at h
    · next hc =>
      have h1 : T1 = R := Option.some.inj h
      exact ⟨h1.symm, h1.symm.trans hc.1⟩
    · cases h

/-- Witness for C1 at `(int32, int32)`, which resolves to `int32`. -/
theorem BitwiseXorOutputType_diagonal_witness :
    BitwiseXorOutputType .int32 .int32 = some .int32 ∧
    (ElemType.int32 = ElemType.int32 ∧ ElemType.int32 = ElemType.int32) ∧
    BitwiseXorOutputType .int32 .int64 = none ∧
    BitwiseXorOutputType .float .float = none :=
  ⟨by decide,
   (BitwiseXorOutputType_diagonal .int32 .int32).2.2.2 .int32 (by decide),
   (BitwiseXorOutputType_diagonal .int32 .int64).2.2.1 (by decide),
   (BitwiseXorOutputType_diagonal .float .float).2.1 (Or.inl (by decide))⟩

/-- C2: the output type of the equality comparison is boolean whatever the operand types:
`EqualOutputType<T1, T2>` is `bool` or `void` and never another type, and it is `bool` for
each of the fourteen same-type pairs, the two complex types included. -/
theorem EqualOutputType_bool_or_void (T1 T2 : ElemType) :
    (EqualOutputType T1 T2 = some .bool ∨ EqualOutputType T1 T2 = none) ∧
    EqualOutputType T1 T1 = some .bool ∧
    EqualOutputType .cfloat .cfloat = some .bool ∧
    EqualOutputType .cdouble .cdouble = some .bool := by
  refine ⟨?_, ?_, by decide, by decide⟩
  · rw [EqualOutputType_eq]
    split
    · exact Or.inl rfl
    · exact Or.inr rfl
  · rw [EqualOutputType_eq]
    simp

/-- C3, as stated, fails: the heterogeneous pair `(int32, int64)` does not resolve to `bool`
but to `void`. -/
theorem EqualOutputType_heterogeneous_counterexample :
    ¬ (EqualOutputType .int32 .int64 = some .bool) ∧ EqualOutputType .int32 .int64 = none := by
  decide

/-- C3, amended: `EqualOutputType<T1, T2>` is `bool` exactly on the same-type pairs (complex
ones included) and `void` on every heterogeneous pair; it is never any other type. -/
theorem EqualOutputType_bool_iff_same (T1 T2 : ElemType) :
    (EqualOutputType T1 T2 = some .bool ↔ T1 = T2) ∧
    (T1 ≠ T2 → EqualOutputType T1 T2 = none) ∧
    (∀ R, EqualOutputType T1 T2 = some R → R = .bool) := by
  rw [EqualOutputType_eq]
  refine ⟨?_, ?_, ?_⟩
  · split <;> simp_all
  · intro h
    simp [h]
  · intro R h
    split at h
    · exact (Option.some.inj h).symm
    · cases h

/-- Witness for the amended C3: `(cfloat, cfloat)` resolves to `bool`, and `(int32, int64)`
does not resolve. -/
theorem EqualOutputType_bool_iff_same_witness :
    EqualOutputType .cfloat .cfloat = some .bool ∧ EqualOutputType .int32 .int64 = none :=
  ⟨(EqualOutputType_bool_iff_same .cfloat .cfloat).1.mpr rfl,
   (EqualOutputType_bool_iff_same .int32 .int64).2.1 (by decide)⟩

/-! ## Factories, dispatch tables and the metadata query -/

/-- The ordinal of an element type is a valid table index. -/
theorem indexOf_typenum_order_lt (T : ElemType) :
    typenum_order.indexOf T < num_types := by
  cases T <;> decide

/-- The entry of a built dispatch table at the ordinals of `T1` and `T2` is what the factory
returns for `(T1, T2)`. -/
theorem populate_dispatch_table_entry (factory : ElemType → ElemType → FnPtr)
    (T1 T2 : ElemType) :
    ((DispatchTableBuilder.populate_dispatch_table factory).getD
        (typenum_order.indexOf T1) []).getD (typenum_order.indexOf T2) none =
      factory T1 T2 := by
  cases T1 <;> cases T2 <;> rfl

/-- C4: for bitwise_xor and for equal, and for every pair `(T1, T2)`, the contiguous factory
and the strided factory each return `nullptr` if and only if the output type of the pair is
`void`; so the contiguous and the strided dispatch tables are null at exactly the same
positions, and a pair that no entry of the resolution list matches gets `nullptr` in
both. -/
theorem factories_null_iff_unsupported (T1 T2 : ElemType) :
    (BitwiseXorContigFactory.get T1 T2 = none ↔ BitwiseXorOutputType T1 T2 = none) ∧
    (BitwiseXorStridedFactory.get T1 T2 = none ↔ BitwiseXorOutputType T1 T2 = none) ∧
    (EqualContigFactory.get T1 T2 = none ↔ EqualOutputType T1 T2 = none) ∧
    (EqualStridedFactory.get T1 T2 = none ↔ EqualOutputType T1 T2 = none) ∧
    (((DispatchTableBuilder.populate_dispatch_table BitwiseXorContigFactory.get).getD
          (typenum_order.indexOf T1) []).getD (typenum_order.indexOf T2) none = none ↔
      ((DispatchTableBuilder.populate_dispatch_table BitwiseXorStridedFactory.get).getD
          (typenum_order.indexOf T1) []).getD (typenum_order.indexOf T2) none = none) ∧
    (((DispatchTableBuilder.populate_dispatch_table EqualContigFactory.get).getD
          (typenum_order.indexOf T1) []).getD (typenum_order.indexOf T2) none = none ↔
      ((DispatchTableBuilder.populate_dispatch_table EqualStridedFactory.get).getD
          (typenum_order.indexOf T1) []).getD (typenum_order.indexOf T2) none = none) ∧
    ((∀ e ∈ BitwiseXorOutputType.entries T1 T2, e.value = false) →
      BitwiseXorContigFactory.get T1 T2 = none ∧
      BitwiseXorStridedFactory.get T1 T2 = none) ∧
    ((∀ e ∈ EqualOutputType.entries T1 T2, e.value = false) →
      EqualContigFactory.get T1 T2 = none ∧ EqualStridedFactory.get T1 T2 = none) := by
  have hxc : BitwiseXorContigFactory.get T1 T2 = none ↔ BitwiseXorOutputType T1 T2 = none := by
    unfold BitwiseXorContigFactory.get
    split <;> simp_all
  have hxs : BitwiseXorStridedFactory.get T1 T2 = none ↔ BitwiseXorOutputType T1 T2 = none := by
    unfold BitwiseXorStridedFactory.get
    split <;> simp_all
  have hec : EqualContigFactory.get T1 T2 = none ↔ EqualOutputType T1 T2 = none := by
    unfold EqualContigFactory.get
    split <;> simp_all
  have hes : EqualStridedFactory.get T1 T2 = none ↔ EqualOutputType T1 T2 = none := by
    unfold EqualStridedFactory.get
    split <;> simp_all
  refine ⟨hxc, hxs, hec, hes, ?_, ?_, ?_, ?_⟩
  · rw [populate_dispatch_table_entry, populate_dispatch_table_entry]
    exact hxc.trans hxs.symm
  · rw [populate_dispatch_table_entry, populate_dispatch_table_entry]
    exact hec.trans hes.symm
  · intro h
    have hv : BitwiseXorOutputType T1 T2 = none := by
      unfold BitwiseXorOutputType
      rw [disjunction_default _ h]
      rfl
    exact ⟨hxc.mpr hv, hxs.mpr hv⟩
  · intro h
    have hv : EqualOutputType T1 T2 = none := by
      unfold EqualOutputType
      rw [disjunction_default _ h]
      rfl
    exact ⟨hec.mpr hv, hes.mpr hv⟩

/-- Witness for C4 at `(float, int8)`, which no entry of the bitwise_xor list matches, and
at `(int32, int64)`, which no entry of the equal list matches. -/
theorem factories_null_iff_unsupported_witness :
    (BitwiseXorContigFactory.get .float .int8 = none ∧
      BitwiseXorStridedFactory.get .float .int8 = none) ∧
    (EqualContigFactory.get .int32 .int64 = none ∧
      EqualStridedFactory.get .int32 .int64 = none) ∧
    BitwiseXorContigFactory.get .int32 .int64 = none :=
  ⟨(factories_null_iff_unsupported .float .int8).2.2.2.2.2.2.1 (by decide),
   (factories_null_iff_unsupported .int32 .int64).2.2.2.2.2.2.2 (by decide),
   (factories_null_iff_unsupported .int32 .int64).1.mpr (by decide)⟩

theorem toBits_lt (w : Nat) (v : Int) : toBits w v < 2 ^ w := by
  unfold toBits
  have h2 : (0 : Int) < 2 ^ w := by positivity
  have h1 := Int.emod_nonneg v (ne_of_gt h2)
  have h3 := Int.emod_lt_of_pos v h2
  have : ((v % 2 ^ w).toNat : Int) < ((2 ^ w : Nat) : Int) := by
    rw [Int.toNat_of_nonneg h1]
    push_cast
    exact h3
  exact_mod_cast this

/-- Bit `i` of the `w`-bit pattern of `v` is bit `i` of the two's complement expansion of `v`
when `i < w`, and is clear otherwise. -/
theorem toBits_testBit (w : Nat) (v : Int) (i : Nat) :
    (toBits w v).testBit i = (decide (i < w) && v.testBit i) := by
  unfold toBits
  cases v with
  | ofNat n =>
    have : ((Int.ofNat n) % 2 ^ w).toNat = n % 2 ^ w := by
      have : (Int.ofNat n) % 2 ^ w = ((n % 2 ^ w : Nat) : Int) := by
        push_cast
        rfl
      rw [this]
      rfl
    rw [this, Nat.testBit_mod_two_pow]
    rfl
  | negSucc n =>
    have hlt : n % 2 ^ w < 2 ^ w := Nat.mod_lt _ (by positivity)
    have : ((Int.negSucc n) % 2 ^ w).toNat = 2 ^ w - (n % 2 ^ w + 1) := by
      have h2 : ((2 : Int) ^ w) = ((2 ^ w : Nat) : Int) := by push_cast; rfl
      rw [h2, Int.emod_negSucc]
      simp only [Int.natAbs_ofNat]
      rw [Int.subNatNat_of_le (by omega)]
      rfl
    rw [this, Nat.testBit_two_pow_sub_succ hlt, Nat.testBit_mod_two_pow]
    simp only [Int.testBit]
    cases decide (i < w) <;> simp

/-- The `w`-bit pattern of the two's complement exclusive or is the exclusive or of the
`w`-bit patterns. -/
theorem toBits_xor (w : Nat) (a b : Int) :
    toBits w (Int.xor a b) = toBits w a ^^^ toBits w b := by
  apply Nat.eq_of_testBit_eq
  intro i
  rw [Nat.testBit_xor, toBits_testBit, toBits_testBit, toBits_testBit, Int.testBit_lxor]
  cases decide (i < w) <;> simp


/-- The signed range of `k + 1` bits is closed under the two's complement exclusive or. -/
theorem xor_signed_range (k : Nat) (a b : Int) (ha : -(2 ^ k : Int) ≤ a ∧ a < 2 ^ k)
    (hb : -(2 ^ k : Int) ≤ b ∧ b < 2 ^ k) :
    -(2 ^ k : Int) ≤ Int.xor a b ∧ Int.xor a b < 2 ^ k := by
  have hpos : (0 : Int) < 2 ^ k := by positivity
  have hcast : ((2 ^ k : Nat) : Int) = (2 : Int) ^ k := by push_cast; rfl
  rcases a with m | m <;> rcases b with n | n
  · have hm : m < 2 ^ k := by have := ha.2; simp only [Int.ofNat_eq_coe] at this; exact_mod_cast this
    have hn : n < 2 ^ k := by have := hb.2; simp only [Int.ofNat_eq_coe] at this; exact_mod_cast this
    have hx := Nat.xor_lt_two_pow hm hn
    show -(2 ^ k : Int) ≤ ((m ^^^ n : Nat) : Int) ∧ ((m ^^^ n : Nat) : Int) < 2 ^ k
    constructor
    · omega
    · rw [← hcast]; exact_mod_cast hx
  · have hm : m < 2 ^ k := by have := ha.2; simp only [Int.ofNat_eq_coe] at this; exact_mod_cast this
    have hn : n < 2 ^ k := by
      have := hb.1
      rw [Int.negSucc_eq, ← hcast] at this
      omega
    have hx := Nat.xor_lt_two_pow hm hn
    show -(2 ^ k : Int) ≤ Int.negSucc (m ^^^ n) ∧ Int.negSucc (m ^^^ n) < 2 ^ k
    rw [Int.negSucc_eq, ← hcast]
    constructor <;> omega
  · have hn : n < 2 ^ k := by have := hb.2; simp only [Int.ofNat_eq_coe] at this; exact_mod_cast this
    have hm : m < 2 ^ k := by
      have := ha.1
      rw [Int.negSucc_eq, ← hcast] at this
      omega
    have hx := Nat.xor_lt_two_pow hm hn
    show -(2 ^ k : Int) ≤ Int.negSucc (m ^^^ n) ∧ Int.negSucc (m ^^^ n) < 2 ^ k
    rw [Int.negSucc_eq, ← hcast]
    constructor <;> omega
  · have hm : m < 2 ^ k := by
      have := ha.1
      rw [Int.negSucc_eq, ← hcast] at this
      omega
    have hn : n < 2 ^ k := by
      have := hb.1
      rw [Int.negSucc_eq, ← hcast] at this
      omega
    have hx := Nat.xor_lt_two_pow hm hn
    show -(2 ^ k : Int) ≤ ((m ^^^ n : Nat) : Int) ∧ ((m ^^^ n : Nat) : Int) < 2 ^ k
    constructor
    · omega
    · rw [← hcast]; exact_mod_cast hx

/-- The unsigned range of `w` bits is closed under the two's complement exclusive or. -/
theorem xor_unsigned_range (w : Nat) (a b : Int) (ha : 0 ≤ a ∧ a < 2 ^ w)
    (hb : 0 ≤ b ∧ b < 2 ^ w) : 0 ≤ Int.xor a b ∧ Int.xor a b < 2 ^ w := by
  have hcast : ((2 ^ w : Nat) : Int) = (2 : Int) ^ w := by push_cast; rfl
  rcases a with m | m <;> rcases b with n | n
  · have hm : m < 2 ^ w := by have := ha.2; simp only [Int.ofNat_eq_coe] at this; exact_mod_cast this
    have hn : n < 2 ^ w := by have := hb.2; simp only [Int.ofNat_eq_coe] at this; exact_mod_cast this
    have hx := Nat.xor_lt_two_pow hm hn
    show 0 ≤ ((m ^^^ n : Nat) : Int) ∧ ((m ^^^ n : Nat) : Int) < 2 ^ w
    constructor
    · omega
    · rw [← hcast]; exact_mod_cast hx
  · exact absurd hb.1 (by simp [Int.negSucc_eq]; omega)
  · exact absurd ha.1 (by simp [Int.negSucc_eq]; omega)
  · exact absurd ha.1 (by simp [Int.negSucc_eq]; omega)

/-- The values of an integer type are closed under the two's complement exclusive or. -/
theorem InRange_xor (T : ElemType) (hT : T.is_integer = true) (a b : Int)
    (ha : InRange T a) (hb : InRange T b) : InRange T (Int.xor a b) := by
  cases T <;> first
    | exact absurd hT (by decide)
    | exact xor_signed_range _ a b ha hb
    | exact xor_unsigned_range _ a b ha hb

/-- A value of an integer type is the value its own bit pattern denotes. -/
theorem ofBits_toBits (T : ElemType) (hT : T.is_integer = true) (v : Int)
    (hv : InRange T v) : ofBits T (toBits T.bits v) = v := by
  cases T <;> first
    | exact absurd hT (by decide)
    | (simp only [InRange, ofBits, toBits, ElemType.bits, ElemType.is_signed, reduceCtorEq,
         if_false, if_true, true_and, false_and, Nat.reduceSub, Bool.false_eq_true] at *
       omega)

/-- Integral promotion is value-preserving: a value of `T` is a value of `promote T`. -/
theorem InRange_promote (T : ElemType) (hT : T = .bool ∨ T.is_integer = true) (v : Int)
    (hv : InRange T v) : InRange (promote T) v := by
  cases T <;> first
    | exact absurd hT (by decide)
    | exact hv
    | (simp only [InRange, promote, ElemType.bits, ElemType.is_signed, reduceCtorEq,
         if_false, if_true, true_and, false_and, Nat.reduceSub, Bool.false_eq_true] at *
       omega)

/-- Every pattern below `2 ^ w` denotes a value of the `w`-bit type, which has that pattern. -/
theorem InRange_ofBits (T : ElemType) (hT : T.is_integer = true) (p : Nat)
    (hp : p < 2 ^ T.bits) : InRange T (ofBits T p) ∧ toBits T.bits (ofBits T p) = p := by
  cases T <;> first
    | exact absurd hT (by decide)
    | (simp only [InRange, ofBits, toBits, ElemType.bits, ElemType.is_signed, reduceCtorEq,
         if_false, if_true, true_and, false_and, Nat.reduceSub, Bool.false_eq_true] at *
       constructor <;> omega)

/-- The promoted type of a boolean or integer type is an integer type. -/
theorem promote_is_integer (T : ElemType) (hT : T = .bool ∨ T.is_integer = true) :
    (promote T).is_integer = true := by
  cases T <;> first
    | exact absurd hT (by decide)
    | rfl

/-- Converting a value of an integer type to that type changes nothing. -/
theorem convert_of_InRange (T : ElemType) (hT : T.is_integer = true) (v : Int)
    (hv : InRange T v) : convert T v = v := by
  have hb : T ≠ .bool := by
    intro h
    rw [h] at hT
    exact absurd hT (by decide)
  unfold convert
  rw [if_neg hb]
  exact ofBits_toBits T hT v hv

/-- On two values of the integer type `P` the builtin `^` is the two's complement exclusive or. -/
theorem builtin_xor_eq (P : ElemType) (hP : P.is_integer = true) (a b : Int)
    (ha : InRange P a) (hb : InRange P b) : builtin_xor P a b = Int.xor a b := by
  unfold builtin_xor
  rw [← toBits_xor]
  exact ofBits_toBits P hP _ (InRange_xor P hP a b ha hb)

/-- On two values of an integer type the scalar functor is the two's complement exclusive
or of the two mathematical values. -/
theorem BitwiseXorFunctor_call_eq (T : ElemType) (hT : T.is_integer = true) (a b : Int)
    (ha : InRange T a) (hb : InRange T b) : BitwiseXorFunctor.call T a b = Int.xor a b := by
  have hb0 : T ≠ .bool := by
    intro h
    rw [h] at hT
    exact absurd hT (by decide)
  have hP := promote_is_integer T (Or.inr hT)
  have haP := InRange_promote T (Or.inr hT) a ha
  have hbP := InRange_promote T (Or.inr hT) b hb
  unfold BitwiseXorFunctor.call
  rw [if_neg hb0, convert_of_InRange _ hP a haP, convert_of_InRange _ hP b hbP,
    builtin_xor_eq _ hP a b haP hbP]
  exact convert_of_InRange T hT _ (InRange_xor T hT a b ha hb)


/-- The element type of a vector comparison result is never `bool`. -/
theorem rel_t_ne_bool (T : ElemType) : ElemType.bool ≠ sycl.rel_t T := by
  cases T <;> decide

/-- Lane `i` of the batch `EqualFunctor` is the comparison of the two lanes, as a `bool`. -/
theorem EqualFunctor_vec_lane {α : Type} (T : ElemType) (eq : α → α → Bool) {vec_sz : Nat}
    (x y : Fin vec_sz → α) (i : Fin vec_sz) :
    EqualFunctor.vec T eq x y i = ofBool (eq (x i) (y i)) := by
  unfold EqualFunctor.vec
  rw [if_neg (rel_t_ne_bool T)]
  unfold vec_cast
  rw [if_neg (fun h => rel_t_ne_bool T h.symm)]
  unfold sycl.vec.eq convert
  cases h : eq (x i) (y i) <;> simp [ofBool]

/-- On two values of one boolean or integer type the builtin `==` is equality of values. -/
theorem builtin_eq_of_InRange (T : ElemType) (hT : T = .bool ∨ T.is_integer = true)
    (a b : Int) (ha : InRange T a) (hb : InRange T b) :
    builtin_eq T a b = decide (a = b) := by
  have hP := promote_is_integer T hT
  unfold builtin_eq
  rw [convert_of_InRange _ hP a (InRange_promote T hT a ha),
    convert_of_InRange _ hP b (InRange_promote T hT b hb)]

/-- On two values of one boolean or integer type the builtin `!=` is inequality of values. -/
theorem builtin_ne_of_InRange (T : ElemType) (hT : T = .bool ∨ T.is_integer = true)
    (a b : Int) (ha : InRange T a) (hb : InRange T b) :
    builtin_ne T a b = decide (a ≠ b) := by
  have hP := promote_is_integer T hT
  unfold builtin_ne
  rw [convert_of_InRange _ hP a (InRange_promote T hT a ha),
    convert_of_InRange _ hP b (InRange_promote T hT b hb)]

/-- Lane `i` of the batch `BitwiseXorFunctor` on `bool` lanes is the inequality of the lanes. -/
theorem BitwiseXorFunctor_vec_lane_bool {vec_sz : Nat} (x y : sycl.vec vec_sz)
    (i : Fin vec_sz) :
    BitwiseXorFunctor.vec .bool x y i = ofBool (decide (x i ≠ y i)) := by
  unfold BitwiseXorFunctor.vec
  simp only [if_true]
  unfold vec_cast
  rw [if_neg (by decide)]
  unfold sycl.vec.ne sycl.lane_eq convert
  by_cases h : x i = y i <;> simp [ofBool, h]

/-- Lane `i` of the batch `BitwiseXorFunctor` on integer lanes is the two's complement
exclusive or of the lanes. -/
theorem BitwiseXorFunctor_vec_lane_integer (T : ElemType) (hT : T.is_integer = true)
    {vec_sz : Nat} (x y : sycl.vec vec_sz) (i : Fin vec_sz)
    (hx : InRange T (x i)) (hy : InRange T (y i)) :
    BitwiseXorFunctor.vec T x y i = Int.xor (x i) (y i) := by
  have hb0 : T ≠ .bool := by
    intro h
    rw [h] at hT
    exact absurd hT (by decide)
  unfold BitwiseXorFunctor.vec
  rw [if_neg hb0]
  unfold sycl.vec.xor
  rw [← toBits_xor]
  exact ofBits_toBits T hT _ (InRange_xor T hT _ _ hx hy)


/-- Both paths of the contiguous functor give the equality test of the two elements at `k`. -/
theorem BinaryContigFunctor_elem_equal (T : ElemType) (hT : T = .bool ∨ T.is_integer = true)
    (vec_sz n_vecs sgSize nelems : Nat) (in1 in2 : Nat → Int) (k : Nat)
    (h1 : InRange T (in1 k)) (h2 : InRange T (in2 k)) :
    BinaryContigFunctor.elem (EqualFunctor.instantiate T T .bool) vec_sz n_vecs sgSize nelems
      in1 in2 k = ofBool (decide (in1 k = in2 k)) := by
  unfold BinaryContigFunctor.elem
  split
  · simp only [EqualFunctor.instantiate]
    rw [EqualFunctor_vec_lane]
    simp only [sycl.lane_eq, Nat.div_add_mod']
  · simp only [EqualFunctor.instantiate, EqualFunctor.call]
    rw [builtin_eq_of_InRange T hT _ _ h1 h2]

/-- Every same-type pair resolves to `bool` for equal. -/
theorem EqualOutputType_self (T : ElemType) : EqualOutputType T T = some .bool := by
  rw [EqualOutputType_eq]
  simp

/-- The contiguous entry point of equal writes, at `res_offset + k`, the equality test of the
two elements at `k`. -/
theorem equal_contig_impl_eq (T : ElemType) (hT : T = .bool ∨ T.is_integer = true)
    (sgSize nelems : Nat) (arg1 : Int → Int) (arg1_offset : Int) (arg2 : Int → Int)
    (arg2_offset res_offset : Int)
    (h1 : ∀ k : Nat, k < nelems → InRange T (arg1 (arg1_offset + (k : Int))))
    (h2 : ∀ k : Nat, k < nelems → InRange T (arg2 (arg2_offset + (k : Int)))) :
    equal_contig_impl T T sgSize nelems arg1 arg1_offset arg2 arg2_offset res_offset =
      some ((List.range nelems).map fun (k : Nat) =>
        (res_offset + (k : Int),
          ofBool (decide (arg1 (arg1_offset + (k : Int)) = arg2 (arg2_offset + (k : Int)))))) := by
  unfold equal_contig_impl binary_contig_impl elementwise_common.resTy BinaryContigFunctor.run
  rw [EqualOutputType_self]
  simp only [Option.some.injEq]
  apply List.map_congr_left
  intro k hk
  have hk2 : k < nelems := List.mem_range.mp hk
  rw [BinaryContigFunctor_elem_equal T hT _ _ _ _ _ _ k (h1 k hk2) (h2 k hk2)]

/-- Reading the buffer of an array at a natural address. -/
theorem buffer_natCast (a : List Int) (k : Nat) : buffer a (0 + (k : Int)) = a.getD k 0 := by
  unfold buffer
  simp

/-- Mapping a binary function over the indices of two arrays of equal length is `zipWith`. -/
theorem map_range_getD_zipWith (f : Int → Int → Int) (x y : List Int)
    (h : x.length = y.length) :
    (List.range x.length).map (fun k => f (x.getD k 0) (y.getD k 0)) = List.zipWith f x y := by
  apply List.ext_getElem
  · simp [h]
  · intro i h1 h2
    simp only [List.length_map, List.length_range] at h1
    have h3 : i < y.length := h ▸ h1
    simp [List.getElem?_eq_getElem h1, List.getElem?_eq_getElem h3]


/-! ## The scalar functors -/

/-- C6: on boolean operands bitwise_xor is logical inequality: for all booleans `a`, `b`
the scalar `BitwiseXorFunctor<bool, bool, bool>` returns `a != b`; the four rows are
(F,F) to F, (F,T) to T, (T,F) to T and (T,T) to F. -/
theorem BitwiseXorFunctor_call_bool (a b : Bool) :
    BitwiseXorFunctor.call .bool (ofBool a) (ofBool b) = ofBool (a != b) ∧
    BitwiseXorFunctor.call .bool (ofBool false) (ofBool false) = ofBool false ∧
    BitwiseXorFunctor.call .bool (ofBool false) (ofBool true) = ofBool true ∧
    BitwiseXorFunctor.call .bool (ofBool true) (ofBool false) = ofBool true ∧
    BitwiseXorFunctor.call .bool (ofBool true) (ofBool true) = ofBool false := by
  refine ⟨?_, by decide, by decide, by decide, by decide⟩
  cases a <;> cases b <;> decide

/-- C7: on integer operands bitwise_xor is the bit-level exclusive or at the operand width.
For every integer type `T` of width `w` and all values `a`, `b` of type `T`, the scalar
`BitwiseXorFunctor<T, T, T>` returns the value of type `T` whose `w`-bit pattern is the
exclusive or of the patterns of `a` and `b`, and it is the only such value; the promotion
to `int` keeps `a` and `b`, and the promoted result is already a value of `T`, so that the
conversion back loses nothing. Applied elementwise, the int32 array `[1,2,3,4]` with the
int32 scalar 5 broadcast by stride 0 gives `[4,7,6,1]`. -/
theorem BitwiseXorFunctor_call_integer (T : ElemType) (a b : Int)
    (hT : T.is_integer = true) (ha : InRange T a) (hb : InRange T b) :
    InRange T (BitwiseXorFunctor.call T a b) ∧
    toBits T.bits (BitwiseXorFunctor.call T a b) = toBits T.bits a ^^^ toBits T.bits b ∧
    (∀ v, InRange T v → toBits T.bits v = toBits T.bits a ^^^ toBits T.bits b →
      v = BitwiseXorFunctor.call T a b) ∧
    convert (promote T) a = a ∧ convert (promote T) b = b ∧
    InRange T (builtin_xor (promote T) a b) ∧
    BitwiseXorFunctor.call T a b = builtin_xor (promote T) a b ∧
    bitwise_xor_strided_impl .int32 .int32 4 [4] [1] [0] [1] (buffer [1, 2, 3, 4]) 0
      (buffer [5]) 0 0 = some [(0, 4), (1, 7), (2, 6), (3, 1)] := by
  have hP := promote_is_integer T (Or.inr hT)
  have haP := InRange_promote T (Or.inr hT) a ha
  have hbP := InRange_promote T (Or.inr hT) b hb
  have hcall := BitwiseXorFunctor_call_eq T hT a b ha hb
  have hr := InRange_xor T hT a b ha hb
  refine ⟨?_, ?_, ?_, convert_of_InRange _ hP a haP, convert_of_InRange _ hP b hbP, ?_, ?_,
    by decide⟩
  · rw [hcall]
    exact hr
  · rw [hcall]
    exact toBits_xor _ a b
  · intro v hv hbits
    rw [hcall, ← ofBits_toBits T hT v hv, hbits, ← toBits_xor]
    exact ofBits_toBits T hT _ hr
  · rw [builtin_xor_eq _ hP a b haP hbP]
    exact hr
  · rw [hcall, builtin_xor_eq _ hP a b haP hbP]

/-- Witness for C7 at `int8`, with a negative operand: `-3 ^ 5 = -8`. -/
theorem BitwiseXorFunctor_call_integer_witness :
    InRange .int8 (BitwiseXorFunctor.call .int8 (-3) 5) ∧
    toBits 8 (BitwiseXorFunctor.call .int8 (-3) 5) = toBits 8 (-3) ^^^ toBits 8 5 ∧
    BitwiseXorFunctor.call .int8 (-3) 5 = -8 :=
  ⟨(BitwiseXorFunctor_call_integer .int8 (-3) 5 (by decide) (by decide) (by decide)).1,
   (BitwiseXorFunctor_call_integer .int8 (-3) 5 (by decide) (by decide) (by decide)).2.1,
   by decide⟩

/-- C8: for every boolean or integer type `T` and all values `a`, `b` of type `T`, the
scalar `EqualFunctor<T, T, bool>` returns true if and only if `a` and `b` are the same
value; applied elementwise to two arrays of equal length (the contiguous entry point) it
yields the array of pointwise equality tests, and the int64 arrays `[1,2,3]` and `[1,5,3]`
give `[true,false,true]`. -/
theorem EqualFunctor_call_iff_same (T : ElemType) (a b : Int)
    (hT : T = .bool ∨ T.is_integer = true) (ha : InRange T a) (hb : InRange T b) :
    EqualFunctor.call (builtin_eq T) a b = ofBool (decide (a = b)) ∧
    (EqualFunctor.call (builtin_eq T) a b = ofBool true ↔ a = b) ∧
    (∀ (sgSize : Nat) (x y : List Int), x.length = y.length →
      (∀ v ∈ x, InRange T v) → (∀ v ∈ y, InRange T v) →
      (equal_contig_impl T T sgSize x.length (buffer x) 0 (buffer y) 0 0).map
          (List.map Prod.snd) =
        some (List.zipWith (fun u v => ofBool (decide (u = v))) x y)) ∧
    (∀ sgSize : Nat,
      equal_contig_impl .int64 .int64 sgSize 3 (buffer [1, 2, 3]) 0 (buffer [1, 5, 3]) 0 0 =
        some [(0, ofBool true), (1, ofBool false), (2, ofBool true)]) := by
  have hcall : EqualFunctor.call (builtin_eq T) a b = ofBool (decide (a = b)) := by
    unfold EqualFunctor.call
    rw [builtin_eq_of_InRange T hT a b ha hb]
  refine ⟨hcall, ?_, ?_, ?_⟩
  · rw [hcall]
    by_cases h : a = b <;> simp [ofBool, h]
  · intro sgSize x y hlen hx hy
    have h1 : ∀ k : Nat, k < x.length → InRange T (buffer x (0 + (k : Int))) := by
      intro k hk
      rw [buffer_natCast, List.getD_eq_getElem _ _ hk]
      exact hx _ (List.getElem_mem hk)
    have h2 : ∀ k : Nat, k < x.length → InRange T (buffer y (0 + (k : Int))) := by
      intro k hk
      have hk2 : k < y.length := hlen ▸ hk
      rw [buffer_natCast, List.getD_eq_getElem _ _ hk2]
      exact hy _ (List.getElem_mem hk2)
    rw [equal_contig_impl_eq T hT sgSize x.length (buffer x) 0 (buffer y) 0 0 h1 h2]
    simp only [Option.map_some', List.map_map, Option.some.injEq]
    rw [← map_range_getD_zipWith _ x y hlen]
    apply List.map_congr_left
    intro k _
    simp only [Function.comp, buffer_natCast]
  · intro sgSize
    have h1 : ∀ k : Nat, k < 3 → InRange .int64 (buffer [1, 2, 3] (0 + (k : Int))) := by
      intro k hk
      interval_cases k <;> decide
    have h2 : ∀ k : Nat, k < 3 → InRange .int64 (buffer [1, 5, 3] (0 + (k : Int))) := by
      intro k hk
      interval_cases k <;> decide
    rw [equal_contig_impl_eq .int64 (Or.inr rfl) sgSize 3 (buffer [1, 2, 3]) 0
      (buffer [1, 5, 3]) 0 0 h1 h2]
    decide

/-- Witness for C8 at `int64`: the two values 2 and 5 differ, and the arrays `[1,2,3]` and
`[1,5,3]` compare to `[true,false,true]`. -/
theorem EqualFunctor_call_iff_same_witness :
    EqualFunctor.call (builtin_eq .int64) 2 5 = ofBool (decide ((2 : Int) = 5)) ∧
    (equal_contig_impl .int64 .int64 8 [1, 2, 3].length (buffer [1, 2, 3]) 0
        (buffer [1, 5, 3]) 0 0).map (List.map Prod.snd) =
      some (List.zipWith (fun u v => ofBool (decide (u = v))) [1, 2, 3] [1, 5, 3]) :=
  ⟨(EqualFunctor_call_iff_same .int64 2 5 (Or.inr rfl) (by decide) (by decide)).1,
   (EqualFunctor_call_iff_same .int64 2 5 (Or.inr rfl) (by decide) (by decide)).2.2.1 8
      [1, 2, 3] [1, 5, 3] rfl (by decide) (by decide)⟩


/-! ## The batch overloads and the capability flags -/

/-- C9: the batch overloads agree lane by lane with the scalar overloads. For every batch
width (2, 4, 8 and 16 among them), every boolean or integer type `T` and all batches `x`,
`y` of values of `T`, lane `i` of `BitwiseXorFunctor`'s and of `EqualFunctor`'s batch result
is the scalar result on `x[i]`, `y[i]`; in the boolean-result cases the lane-wise comparison
gives the mask -1 or 0 and the lane is true exactly where the mask is non-zero. The same
holds for `EqualFunctor` on `half`, `float` and `double` batches, whatever the values and
the comparison of the floating-point type are. -/
theorem vec_agrees_with_scalar (T : ElemType) (vec_sz : Nat) (x y : sycl.vec vec_sz)
    (i : Fin vec_sz) (hT : T = .bool ∨ T.is_integer = true)
    (hx : ∀ j, InRange T (x j)) (hy : ∀ j, InRange T (y j)) :
    BitwiseXorFunctor.vec T x y i = BitwiseXorFunctor.call T (x i) (y i) ∧
    EqualFunctor.vec T sycl.lane_eq x y i = EqualFunctor.call (builtin_eq T) (x i) (y i) ∧
    (sycl.vec.eq sycl.lane_eq x y i = -1 ∨ sycl.vec.eq sycl.lane_eq x y i = 0) ∧
    EqualFunctor.vec T sycl.lane_eq x y i =
      ofBool (decide (sycl.vec.eq sycl.lane_eq x y i ≠ 0)) ∧
    (sycl.vec.ne sycl.lane_eq x y i = -1 ∨ sycl.vec.ne sycl.lane_eq x y i = 0) ∧
    (T = .bool → BitwiseXorFunctor.vec T x y i =
      ofBool (decide (sycl.vec.ne sycl.lane_eq x y i ≠ 0))) ∧
    (∀ (F : Type) (feq : F → F → Bool) (Tf : ElemType) (u v : Fin vec_sz → F),
      Tf ∈ [ElemType.half, .float, .double] →
        EqualFunctor.vec Tf feq u v i = EqualFunctor.call feq (u i) (v i) ∧
        (sycl.vec.eq feq u v i = -1 ∨ sycl.vec.eq feq u v i = 0) ∧
        EqualFunctor.vec Tf feq u v i = ofBool (decide (sycl.vec.eq feq u v i ≠ 0))) := by
  have hmask : ∀ (F : Type) (feq : F → F → Bool) (u v : Fin vec_sz → F),
      (sycl.vec.eq feq u v i = -1 ∨ sycl.vec.eq feq u v i = 0) ∧
      ofBool (feq (u i) (v i)) = ofBool (decide (sycl.vec.eq feq u v i ≠ 0)) := by
    intro F feq u v
    unfold sycl.vec.eq
    cases feq (u i) (v i) <;> simp
  have hne : (sycl.vec.ne sycl.lane_eq x y i = -1 ∨ sycl.vec.ne sycl.lane_eq x y i = 0) ∧
      ofBool (decide (x i ≠ y i)) = ofBool (decide (sycl.vec.ne sycl.lane_eq x y i ≠ 0)) := by
    unfold sycl.vec.ne sycl.lane_eq
    by_cases h : x i = y i <;> simp [h]
  refine ⟨?_, ?_, (hmask Int sycl.lane_eq x y).1, ?_, hne.1, ?_, ?_⟩
  · rcases hT with hT | hT
    · subst hT
      rw [BitwiseXorFunctor_vec_lane_bool]
      unfold BitwiseXorFunctor.call
      rw [if_pos rfl, builtin_ne_of_InRange .bool (Or.inl rfl) _ _ (hx i) (hy i)]
    · rw [BitwiseXorFunctor_vec_lane_integer T hT x y i (hx i) (hy i),
        BitwiseXorFunctor_call_eq T hT _ _ (hx i) (hy i)]
  · rw [EqualFunctor_vec_lane]
    unfold EqualFunctor.call
    rw [builtin_eq_of_InRange T hT _ _ (hx i) (hy i)]
    rfl
  · rw [EqualFunctor_vec_lane]
    exact (hmask Int sycl.lane_eq x y).2
  · intro hb
    subst hb
    rw [BitwiseXorFunctor_vec_lane_bool]
    exact hne.2
  · intro F feq Tf u v _
    refine ⟨?_, (hmask F feq u v).1, ?_⟩
    · rw [EqualFunctor_vec_lane]
      rfl
    · rw [EqualFunctor_vec_lane]
      exact (hmask F feq u v).2

/-- Witness for C9: width 4, `int8` lanes with negative values, lane 1; and a batch of
`bool` lanes. -/
theorem vec_agrees_with_scalar_witness :
    (BitwiseXorFunctor.vec .int8 (![1, -3, 3, 4] : sycl.vec 4) ![5, 5, -128, 127] 1 =
        BitwiseXorFunctor.call .int8 (-3) 5 ∧
      EqualFunctor.vec .int8 sycl.lane_eq (![1, -3, 3, 4] : sycl.vec 4)
          ![5, 5, -128, 127] 1 =
        EqualFunctor.call (builtin_eq .int8) (-3) 5) ∧
    BitwiseXorFunctor.vec .bool (![1, 0] : sycl.vec 2) ![0, 0] 0 =
      ofBool (decide (sycl.vec.ne sycl.lane_eq (![1, 0] : sycl.vec 2) ![0, 0] 0 ≠ 0)) :=
  ⟨⟨(vec_agrees_with_scalar .int8 4 ![1, -3, 3, 4] ![5, 5, -128, 127] 1 (Or.inr rfl)
        (by decide) (by decide)).1,
    (vec_agrees_with_scalar .int8 4 ![1, -3, 3, 4] ![5, 5, -128, 127] 1 (Or.inr rfl)
        (by decide) (by decide)).2.1⟩,
   (vec_agrees_with_scalar .bool 2 ![1, 0] ![0, 0] 0 (Or.inl rfl)
        (by decide) (by decide)).2.2.2.2.2.1 rfl⟩

/-- C10, as stated, fails: `EqualFunctor<int32, int64, bool>` has no complex operand, but
its `supports_vec` is false. -/
theorem EqualFunctor_supports_vec_counterexample :
    ¬ ((is_complex .int32 || is_complex .int64) = false →
        EqualFunctor.supports_sg_loadstore .int32 .int64 = true ∧
        EqualFunctor.supports_vec .int32 .int64 = true) := by
  decide

/-- C10, amended: `EqualFunctor`'s `supports_sg_loadstore` is false exactly when at least
one operand type is complex; its `supports_vec` is true exactly when the two operand types
are identical and not complex. So for identical operand types both flags are false when the
type is complex and true otherwise. `BitwiseXorFunctor`'s two flags are always true, and on
every pair for which bitwise_xor resolves no operand is complex. -/
theorem capability_flags (argT1 argT2 : ElemType) :
    (EqualFunctor.supports_sg_loadstore argT1 argT2 = false ↔
      (is_complex argT1 = true ∨ is_complex argT2 = true)) ∧
    (EqualFunctor.supports_vec argT1 argT2 = true ↔
      (argT1 = argT2 ∧ is_complex argT1 = false ∧ is_complex argT2 = false)) ∧
    (argT1 = argT2 →
      EqualFunctor.supports_sg_loadstore argT1 argT2 = !(is_complex argT1) ∧
      EqualFunctor.supports_vec argT1 argT2 = !(is_complex argT1)) ∧
    BitwiseXorFunctor.supports_sg_loadstore argT1 argT2 = true ∧
    BitwiseXorFunctor.supports_vec argT1 argT2 = true ∧
    (BitwiseXorOutputType argT1 argT2 ≠ none →
      is_complex argT1 = false ∧ is_complex argT2 = false) := by
  refine ⟨?_, ?_, ?_, rfl, rfl, ?_⟩
  · cases argT1 <;> cases argT2 <;> decide
  · cases argT1 <;> cases argT2 <;> decide
  · cases argT1 <;> cases argT2 <;> decide
  · cases argT1 <;> cases argT2 <;> decide

/-- Witness for the amended C10: `(cfloat, cfloat)` has both flags false, `(int32, int32)`
has both true. -/
theorem capability_flags_witness :
    (EqualFunctor.supports_sg_loadstore .cfloat .cfloat = !(is_complex .cfloat) ∧
      EqualFunctor.supports_vec .cfloat .cfloat = !(is_complex .cfloat)) ∧
    (EqualFunctor.supports_sg_loadstore .int32 .int32 = !(is_complex .int32) ∧
      EqualFunctor.supports_vec .int32 .int32 = !(is_complex .int32)) ∧
    (is_complex .int32 = false ∧ is_complex .int32 = false) :=
  ⟨(capability_flags .cfloat .cfloat).2.2.1 rfl,
   (capability_flags .int32 .int32).2.2.1 rfl,
   (capability_flags .int32 .int32).2.2.2.2.2 (by decide)⟩

/-! ## Strided against contiguous execution -/

/-- When the batch overload agrees with the scalar overload on the lanes that satisfy `P`,
both paths of the contiguous functor give the scalar result on the two elements at `k`. -/
theorem BinaryContigFunctor_elem_eq_call {α : Type} (op : BinaryOperatorT α) (P : α → Prop)
    (hvec : ∀ (vec_sz : Nat) (x y : Fin vec_sz → α) (i : Fin vec_sz), P (x i) → P (y i) →
      op.vec vec_sz x y i = op.call (x i) (y i))
    (vec_sz n_vecs sgSize nelems : Nat) (in1 in2 : Nat → α) (k : Nat)
    (h1 : P (in1 k)) (h2 : P (in2 k)) :
    BinaryContigFunctor.elem op vec_sz n_vecs sgSize nelems in1 in2 k =
      op.call (in1 k) (in2 k) := by
  unfold BinaryContigFunctor.elem
  split
  · have hk : k / vec_sz * vec_sz + k % vec_sz = k := Nat.div_add_mod' k vec_sz
    rw [hvec]
    · simp only [hk]
    · simp only [hk]; exact h1
    · simp only [hk]; exact h2
  · rfl

/-- Closed form of the contiguous strategy for a functor whose batch overload agrees with its
scalar overload on the elements it reads. -/
theorem binary_contig_impl_eq {α : Type} (BinaryOutputType : ElemType → ElemType → ResultType)
    (BinaryOperator : ElemType → ElemType → ElemType → BinaryOperatorT α)
    (argTy1 argTy2 resTy : ElemType) (hres : BinaryOutputType argTy1 argTy2 = some resTy)
    (P : α → Prop)
    (hvec : ∀ (vec_sz : Nat) (x y : Fin vec_sz → α) (i : Fin vec_sz), P (x i) → P (y i) →
      (BinaryOperator argTy1 argTy2 resTy).vec vec_sz x y i =
        (BinaryOperator argTy1 argTy2 resTy).call (x i) (y i))
    (vec_sz n_vecs sgSize nelems : Nat) (arg1 : Int → α) (arg1_offset : Int)
    (arg2 : Int → α) (arg2_offset res_offset : Int)
    (h1 : ∀ k : Nat, k < nelems → P (arg1 (arg1_offset + (k : Int))))
    (h2 : ∀ k : Nat, k < nelems → P (arg2 (arg2_offset + (k : Int)))) :
    binary_contig_impl BinaryOutputType BinaryOperator argTy1 argTy2 vec_sz n_vecs sgSize
        nelems arg1 arg1_offset arg2 arg2_offset res_offset =
      some ((List.range nelems).map fun (k : Nat) =>
        (res_offset + (k : Int),
          (BinaryOperator argTy1 argTy2 resTy).call (arg1 (arg1_offset + (k : Int)))
            (arg2 (arg2_offset + (k : Int))))) := by
  unfold binary_contig_impl elementwise_common.resTy BinaryContigFunctor.run
  rw [hres]
  simp only [Option.some.injEq]
  apply List.map_congr_left
  intro k hk
  have hk2 : k < nelems := List.mem_range.mp hk
  rw [BinaryContigFunctor_elem_eq_call _ P hvec _ _ _ _ _ _ k (h1 k hk2) (h2 k hk2)]

/-- Closed form of the strided strategy. -/
theorem binary_strided_impl_eq {α : Type}
    (BinaryOutputType : ElemType → ElemType → ResultType)
    (BinaryOperator : ElemType → ElemType → ElemType → BinaryOperatorT α)
    (argTy1 argTy2 resTy : ElemType) (hres : BinaryOutputType argTy1 argTy2 = some resTy)
    (nelems : Nat) (shape : List Nat) (arg1_strides arg2_strides res_strides : List Int)
    (arg1 : Int → α) (arg1_offset : Int) (arg2 : Int → α) (arg2_offset res_offset : Int) :
    binary_strided_impl BinaryOutputType BinaryOperator argTy1 argTy2 nelems shape
        arg1_strides arg2_strides res_strides arg1 arg1_offset arg2 arg2_offset res_offset =
      some ((List.range nelems).map fun (i : Nat) =>
        (res_offset + dot (unravel shape i) res_strides,
          (BinaryOperator argTy1 argTy2 resTy).call
            (arg1 (arg1_offset + dot (unravel shape i) arg1_strides))
            (arg2 (arg2_offset + dot (unravel shape i) arg2_strides)))) := by
  unfold binary_strided_impl elementwise_common.resTy BinaryStridedFunctor.run
  rw [hres]

/-- The strided and the contiguous strategy write the same values when the strided operands
present the elements of the flat buffers. -/
theorem binary_strided_eq_contig {α : Type}
    (BinaryOutputType : ElemType → ElemType → ResultType)
    (BinaryOperator : ElemType → ElemType → ElemType → BinaryOperatorT α)
    (argTy1 argTy2 resTy : ElemType) (hres : BinaryOutputType argTy1 argTy2 = some resTy)
    (P : α → Prop)
    (hvec : ∀ (vec_sz : Nat) (x y : Fin vec_sz → α) (i : Fin vec_sz), P (x i) → P (y i) →
      (BinaryOperator argTy1 argTy2 resTy).vec vec_sz x y i =
        (BinaryOperator argTy1 argTy2 resTy).call (x i) (y i))
    (vec_sz n_vecs sgSize nelems : Nat) (shape : List Nat) (s1 s2 sr : List Int)
    (m1 : Int → α) (o1 : Int) (m2 : Int → α) (o2 ro : Int)
    (c1 : Int → α) (p1 : Int) (c2 : Int → α) (p2 pr : Int)
    (h1 : ∀ i : Nat, i < nelems → m1 (o1 + dot (unravel shape i) s1) = c1 (p1 + (i : Int)))
    (h2 : ∀ i : Nat, i < nelems → m2 (o2 + dot (unravel shape i) s2) = c2 (p2 + (i : Int)))
    (hr1 : ∀ i : Nat, i < nelems → P (c1 (p1 + (i : Int))))
    (hr2 : ∀ i : Nat, i < nelems → P (c2 (p2 + (i : Int)))) :
    (binary_strided_impl BinaryOutputType BinaryOperator argTy1 argTy2 nelems shape s1 s2 sr
        m1 o1 m2 o2 ro).map (List.map Prod.snd) =
      (binary_contig_impl BinaryOutputType BinaryOperator argTy1 argTy2 vec_sz n_vecs sgSize
        nelems c1 p1 c2 p2 pr).map (List.map Prod.snd) ∧
    (binary_strided_impl BinaryOutputType BinaryOperator argTy1 argTy2 nelems shape s1 s2 sr
        m1 o1 m2 o2 ro).map (List.map Prod.snd) =
      some ((List.range nelems).map fun (i : Nat) =>
        (BinaryOperator argTy1 argTy2 resTy).call (c1 (p1 + (i : Int)))
          (c2 (p2 + (i : Int)))) := by
  rw [binary_strided_impl_eq _ _ _ _ resTy hres,
    binary_contig_impl_eq _ _ _ _ resTy hres P hvec _ _ _ _ _ _ _ _ _ hr1 hr2]
  simp only [Option.map_some', List.map_map, Option.some.injEq]
  have key : ∀ i ∈ List.range nelems,
      (Prod.snd ∘ fun (i : Nat) =>
        (ro + dot (unravel shape i) sr,
          (BinaryOperator argTy1 argTy2 resTy).call (m1 (o1 + dot (unravel shape i) s1))
            (m2 (o2 + dot (unravel shape i) s2)))) i =
      (fun (i : Nat) => (BinaryOperator argTy1 argTy2 resTy).call (c1 (p1 + (i : Int)))
          (c2 (p2 + (i : Int)))) i := by
    intro i hi
    have hi2 : i < nelems := List.mem_range.mp hi
    simp only [Function.comp, h1 i hi2, h2 i hi2]
  constructor
  · rw [List.map_congr_left key]
    apply List.map_congr_left
    intro i _
    rfl
  · exact List.map_congr_left key


/-- Every same-type pair of boolean or integer types resolves to that type for bitwise_xor. -/
theorem BitwiseXorOutputType_self (T : ElemType) (hT : T = .bool ∨ T.is_integer = true) :
    BitwiseXorOutputType T T = some T := by
  cases T <;> first
    | exact absurd hT (by decide)
    | rfl

/-- On lanes that are values of `T` the batch `BitwiseXorFunctor` agrees with the scalar
one. -/
theorem BitwiseXorFunctor_vec_eq_call (T : ElemType) (hT : T = .bool ∨ T.is_integer = true)
    (vec_sz : Nat) (x y : sycl.vec vec_sz) (i : Fin vec_sz)
    (hx : InRange T (x i)) (hy : InRange T (y i)) :
    BitwiseXorFunctor.vec T x y i = BitwiseXorFunctor.call T (x i) (y i) := by
  rcases hT with hT | hT
  · subst hT
    rw [BitwiseXorFunctor_vec_lane_bool]
    unfold BitwiseXorFunctor.call
    rw [if_pos rfl, builtin_ne_of_InRange .bool (Or.inl rfl) _ _ hx hy]
  · rw [BitwiseXorFunctor_vec_lane_integer T hT x y i hx hy,
      BitwiseXorFunctor_call_eq T hT _ _ hx hy]

/-- On lanes that are values of `T` the batch `EqualFunctor` agrees with the scalar one. -/
theorem EqualFunctor_vec_eq_call (T : ElemType) (hT : T = .bool ∨ T.is_integer = true)
    (vec_sz : Nat) (x y : sycl.vec vec_sz) (i : Fin vec_sz)
    (hx : InRange T (x i)) (hy : InRange T (y i)) :
    EqualFunctor.vec T sycl.lane_eq x y i = EqualFunctor.call (builtin_eq T) (x i) (y i) := by
  rw [EqualFunctor_vec_lane]
  unfold EqualFunctor.call
  rw [builtin_eq_of_InRange T hT _ _ hx hy]
  rfl

/-- The multi-index of a lane has one entry per axis. -/
theorem length_unravel (shape : List Nat) (i : Nat) :
    (unravel shape i).length = shape.length := by
  induction shape generalizing i with
  | nil => rfl
  | cons s shape ih => simp [unravel, ih]

/-- Unravelling is row-major: the multi-index of lane `i` addresses element `i` of a
C-contiguous array of the same shape. -/
theorem dot_unravel_c_contiguous (shape : List Nat) (i : Nat) (hi : i < shape.prod) :
    dot (unravel shape i) (c_contiguous_strides shape) = (i : Int) := by
  induction shape generalizing i with
  | nil => 
    simp only [List.prod_nil, Nat.lt_one_iff] at hi
    subst hi
    rfl
  | cons s shape ih =>
    rw [List.prod_cons] at hi
    have hpos : 0 < shape.prod := by
      rcases Nat.eq_zero_or_pos shape.prod with h0 | h0
      · rw [h0] at hi
        omega
      · exact h0
    have hq : i / shape.prod < s := by
      rw [Nat.div_lt_iff_lt_mul hpos]
      exact hi
    have ih2 := ih (i % shape.prod) (Nat.mod_lt i hpos)
    have hstep : dot (unravel (s :: shape) i) (c_contiguous_strides (s :: shape)) =
        ((i / shape.prod % s : Nat) : Int) * (shape.prod : Int) +
          dot (unravel shape (i % shape.prod)) (c_contiguous_strides shape) := by
      simp [dot, unravel, c_contiguous_strides]
    rw [hstep, ih2, Nat.mod_eq_of_lt hq]
    have := Nat.div_add_mod' i shape.prod
    exact_mod_cast this

/-- The rank of a multi-index inside a shape is below the number of elements. -/
theorem row_major_index_lt (shape idx : List Nat) (h : in_shape shape idx = true) :
    row_major_index shape idx < shape.prod := by
  induction shape generalizing idx with
  | nil =>
    cases idx with
    | nil => simp [row_major_index]
    | cons i ix => simp [in_shape] at h
  | cons s sh ih =>
    cases idx with
    | nil => simp [in_shape] at h
    | cons i ix =>
      simp only [in_shape, Bool.and_eq_true, decide_eq_true_eq] at h
      have hr := ih ix h.2
      simp only [row_major_index, List.prod_cons]
      calc i * sh.prod + row_major_index sh ix < i * sh.prod + sh.prod := by omega
        _ = (i + 1) * sh.prod := by ring
        _ ≤ s * sh.prod := Nat.mul_le_mul_right _ h.1

/-- Unravelling the rank of a multi-index inside a shape gives the multi-index back. -/
theorem unravel_row_major_index (shape idx : List Nat) (h : in_shape shape idx = true) :
    unravel shape (row_major_index shape idx) = idx := by
  induction shape generalizing idx with
  | nil =>
    cases idx with
    | nil => rfl
    | cons i ix => simp [in_shape] at h
  | cons s sh ih =>
    cases idx with
    | nil => simp [in_shape] at h
    | cons i ix =>
      simp only [in_shape, Bool.and_eq_true, decide_eq_true_eq] at h
      have hr := row_major_index_lt sh ix h.2
      have hpos : 0 < sh.prod := by omega
      have hdiv : (i * sh.prod + row_major_index sh ix) / sh.prod = i := by
        rw [Nat.add_comm, Nat.add_mul_div_right _ _ hpos, Nat.div_eq_of_lt hr, Nat.zero_add]
      have hmod : (i * sh.prod + row_major_index sh ix) % sh.prod = row_major_index sh ix := by
        rw [Nat.add_comm, Nat.add_mul_mod_self_right, Nat.mod_eq_of_lt hr]
      simp only [row_major_index, unravel, hdiv, hmod, Nat.mod_eq_of_lt h.1, ih ix h.2]

/-- The multi-index of a lane below the number of elements lies inside the shape. -/
theorem in_shape_unravel (shape : List Nat) (i : Nat) (hi : i < shape.prod) :
    in_shape shape (unravel shape i) = true := by
  induction shape generalizing i with
  | nil => rfl
  | cons s sh ih =>
    rw [List.prod_cons] at hi
    have hpos : 0 < sh.prod := by
      rcases Nat.eq_zero_or_pos sh.prod with h0 | h0
      · rw [h0] at hi
        omega
      · exact h0
    have hspos : 0 < s := by
      rcases Nat.eq_zero_or_pos s with h0 | h0
      · rw [h0] at hi
        omega
      · exact h0
    simp only [unravel, in_shape, Bool.and_eq_true, decide_eq_true_eq]
    exact ⟨Nat.mod_lt _ hspos, ih (i % sh.prod) (Nat.mod_lt i hpos)⟩

/-- Unravelling is row-major: the multi-index of lane `i` has rank `i`. -/
theorem row_major_index_unravel (shape : List Nat) (i : Nat) (hi : i < shape.prod) :
    row_major_index shape (unravel shape i) = i := by
  induction shape generalizing i with
  | nil =>
    simp only [List.prod_nil, Nat.lt_one_iff] at hi
    subst hi
    rfl
  | cons s sh ih =>
    rw [List.prod_cons] at hi
    have hpos : 0 < sh.prod := by
      rcases Nat.eq_zero_or_pos sh.prod with h0 | h0
      · rw [h0] at hi
        omega
      · exact h0
    have hq : i / sh.prod < s := by
      rw [Nat.div_lt_iff_lt_mul hpos]
      exact hi
    simp only [unravel, row_major_index, Nat.mod_eq_of_lt hq, ih (i % sh.prod) (Nat.mod_lt i hpos)]
    exact Nat.div_add_mod' i sh.prod

/-- The rank of a multi-index inside a shape is its flat position in a C-contiguous array. -/
theorem dot_c_contiguous_strides (shape idx : List Nat) (h : in_shape shape idx = true) :
    dot idx (c_contiguous_strides shape) = (row_major_index shape idx : Int) := by
  induction shape generalizing idx with
  | nil =>
    cases idx with
    | nil => rfl
    | cons i ix => simp [in_shape] at h
  | cons s sh ih =>
    cases idx with
    | nil => simp [in_shape] at h
    | cons i ix =>
      simp only [in_shape, Bool.and_eq_true, decide_eq_true_eq] at h
      have hstep : dot (i :: ix) (c_contiguous_strides (s :: sh)) =
          (i : Int) * (sh.prod : Int) + dot ix (c_contiguous_strides sh) := by
        simp [dot, c_contiguous_strides]
      rw [hstep, ih ix h.2]
      simp [row_major_index]

/-- The strided and the contiguous strategy produce the same output when every element of
the strided operands is the element of the same row-major rank of the flat buffers. -/
theorem binary_same_output {α : Type}
    (BinaryOutputType : ElemType → ElemType → ResultType)
    (BinaryOperator : ElemType → ElemType → ElemType → BinaryOperatorT α)
    (argTy1 argTy2 resTy : ElemType) (hres : BinaryOutputType argTy1 argTy2 = some resTy)
    (P : α → Prop)
    (hvec : ∀ (vec_sz : Nat) (x y : Fin vec_sz → α) (i : Fin vec_sz), P (x i) → P (y i) →
      (BinaryOperator argTy1 argTy2 resTy).vec vec_sz x y i =
        (BinaryOperator argTy1 argTy2 resTy).call (x i) (y i))
    (vec_sz n_vecs sgSize : Nat) (shape : List Nat) (s1 s2 sr : List Int)
    (m1 : Int → α) (o1 : Int) (m2 : Int → α) (o2 ro : Int)
    (c1 : Int → α) (p1 : Int) (c2 : Int → α) (p2 pr : Int)
    (h1 : ∀ idx : List Nat, in_shape shape idx = true →
      m1 (o1 + dot idx s1) = c1 (p1 + (row_major_index shape idx : Int)))
    (h2 : ∀ idx : List Nat, in_shape shape idx = true →
      m2 (o2 + dot idx s2) = c2 (p2 + (row_major_index shape idx : Int)))
    (hr1 : ∀ i : Nat, i < shape.prod → P (c1 (p1 + (i : Int))))
    (hr2 : ∀ i : Nat, i < shape.prod → P (c2 (p2 + (i : Int)))) :
    SameOutput shape ro sr pr
      (fun i => (BinaryOperator argTy1 argTy2 resTy).call (c1 (p1 + (i : Int)))
        (c2 (p2 + (i : Int))))
      (binary_strided_impl BinaryOutputType BinaryOperator argTy1 argTy2 shape.prod shape
        s1 s2 sr m1 o1 m2 o2 ro)
      (binary_contig_impl BinaryOutputType BinaryOperator argTy1 argTy2 vec_sz n_vecs sgSize
        shape.prod c1 p1 c2 p2 pr) := by
  have h1i : ∀ i : Nat, i < shape.prod →
      m1 (o1 + dot (unravel shape i) s1) = c1 (p1 + (i : Int)) := by
    intro i hi
    have := h1 (unravel shape i) (in_shape_unravel shape i hi)
    rw [row_major_index_unravel shape i hi] at this
    exact this
  have h2i : ∀ i : Nat, i < shape.prod →
      m2 (o2 + dot (unravel shape i) s2) = c2 (p2 + (i : Int)) := by
    intro i hi
    have := h2 (unravel shape i) (in_shape_unravel shape i hi)
    rw [row_major_index_unravel shape i hi] at this
    exact this
  have hvals := (binary_strided_eq_contig BinaryOutputType BinaryOperator argTy1 argTy2 resTy
    hres P hvec vec_sz n_vecs sgSize shape.prod shape s1 s2 sr m1 o1 m2 o2 ro c1 p1 c2 p2 pr
    h1i h2i hr1 hr2).1
  rw [binary_strided_impl_eq _ _ _ _ resTy hres,
    binary_contig_impl_eq _ _ _ _ resTy hres P hvec _ _ _ _ _ _ _ _ _ hr1 hr2] at hvals ⊢
  simp only [Option.map_some', Option.some.injEq] at hvals
  refine ⟨_, _, rfl, rfl, by simp, by simp, hvals, ?_⟩
  intro idx hidx
  have hlt := row_major_index_lt shape idx hidx
  have hun := unravel_row_major_index shape idx hidx
  constructor
  · rw [List.get?_eq_getElem?, List.getElem?_map, List.getElem?_range hlt]
    simp only [Option.map_some', hun, h1 idx hidx, h2 idx hidx]
  · rw [List.get?_eq_getElem?, List.getElem?_map, List.getElem?_range hlt]
    simp only [Option.map_some']

/-- C11: for bitwise_xor and equal the strided entry point and the contiguous entry point
compute the same output. For every rank (0 included), shape, offsets and strides (zero and
negative strides included): if every element of the two strided operands, taken at a
multi-index inside the shape (offset plus dot product of the multi-index with the strides),
is the element of the same row-major rank of a flat unit-stride buffer, then both launches
take place and write as many results as the shape has elements, and for every multi-index
the strided path writes, to that element of its result operand, the same value that the
contiguous path writes to the flat position of the same rank: the scalar functor applied to
the two flat elements. This holds for operands of the boolean and integer types, and for
equal on operands of any type whose values and comparison are taken as parameters. The
lane-to-multi-index map of the strided path is the row-major enumeration: it is the inverse
of the row-major rank on the multi-indices inside the shape. -/
theorem strided_agrees_with_contig (sgSize : Nat) (shape : List Nat)
    (s1 s2 sr : List Int) (o1 o2 ro p1 p2 pr : Int) :
    (∀ (T : ElemType) (m1 m2 c1 c2 : Int → Int), (T = .bool ∨ T.is_integer = true) →
      (∀ idx : List Nat, in_shape shape idx = true →
        m1 (o1 + dot idx s1) = c1 (p1 + (row_major_index shape idx : Int))) →
      (∀ idx : List Nat, in_shape shape idx = true →
        m2 (o2 + dot idx s2) = c2 (p2 + (row_major_index shape idx : Int))) →
      (∀ i : Nat, i < shape.prod → InRange T (c1 (p1 + (i : Int)))) →
      (∀ i : Nat, i < shape.prod → InRange T (c2 (p2 + (i : Int)))) →
      SameOutput shape ro sr pr
        (fun i => BitwiseXorFunctor.call T (c1 (p1 + (i : Int))) (c2 (p2 + (i : Int))))
        (bitwise_xor_strided_impl T T shape.prod shape s1 s2 sr m1 o1 m2 o2 ro)
        (bitwise_xor_contig_impl T T sgSize shape.prod c1 p1 c2 p2 pr) ∧
      SameOutput shape ro sr pr
        (fun i => EqualFunctor.call (builtin_eq T) (c1 (p1 + (i : Int)))
          (c2 (p2 + (i : Int))))
        (equal_strided_impl T T shape.prod shape s1 s2 sr m1 o1 m2 o2 ro)
        (equal_contig_impl T T sgSize shape.prod c1 p1 c2 p2 pr)) ∧
    (∀ (T : ElemType) (V : Type) (feq : V → V → Bool) (m1 m2 c1 c2 : Int → V),
      (∀ idx : List Nat, in_shape shape idx = true →
        m1 (o1 + dot idx s1) = c1 (p1 + (row_major_index shape idx : Int))) →
      (∀ idx : List Nat, in_shape shape idx = true →
        m2 (o2 + dot idx s2) = c2 (p2 + (row_major_index shape idx : Int))) →
      SameOutput shape ro sr pr
        (fun i => EqualFunctor.call feq (c1 (p1 + (i : Int))) (c2 (p2 + (i : Int))))
        (equal_strided_impl_fp feq T T shape.prod shape s1 s2 sr m1 o1 m2 o2 ro)
        (equal_contig_impl_fp feq T T sgSize shape.prod c1 p1 c2 p2 pr)) ∧
    (∀ i : Nat, i < shape.prod →
      in_shape shape (unravel shape i) = true ∧
      row_major_index shape (unravel shape i) = i) ∧
    (∀ idx : List Nat, in_shape shape idx = true →
      row_major_index shape idx < shape.prod ∧
      unravel shape (row_major_index shape idx) = idx ∧
      dot idx (c_contiguous_strides shape) = (row_major_index shape idx : Int)) := by
  refine ⟨?_, ?_,
    fun i hi => ⟨in_shape_unravel shape i hi, row_major_index_unravel shape i hi⟩,
    fun idx h => ⟨row_major_index_lt shape idx h, unravel_row_major_index shape idx h,
      dot_c_contiguous_strides shape idx h⟩⟩
  · intro T m1 m2 c1 c2 hT h1 h2 hr1 hr2
    exact ⟨binary_same_output BitwiseXorOutputType BitwiseXorFunctor.instantiate
        T T T (BitwiseXorOutputType_self T hT) (InRange T)
        (fun vec_sz x y i hx hy => BitwiseXorFunctor_vec_eq_call T hT vec_sz x y i hx hy)
        4 2 sgSize shape s1 s2 sr m1 o1 m2 o2 ro c1 p1 c2 p2 pr h1 h2 hr1 hr2,
      binary_same_output EqualOutputType EqualFunctor.instantiate
        T T .bool (EqualOutputType_self T) (InRange T)
        (fun vec_sz x y i hx hy => EqualFunctor_vec_eq_call T hT vec_sz x y i hx hy)
        4 2 sgSize shape s1 s2 sr m1 o1 m2 o2 ro c1 p1 c2 p2 pr h1 h2 hr1 hr2⟩
  · intro T V feq m1 m2 c1 c2 h1 h2
    exact binary_same_output EqualOutputType (EqualFunctor.instantiate_fp feq)
      T T .bool (EqualOutputType_self T) (fun _ => True)
      (fun vec_sz x y i _ _ => EqualFunctor_vec_lane T feq x y i)
      4 2 sgSize shape s1 s2 sr m1 o1 m2 o2 ro c1 p1 c2 p2 pr h1 h2
      (fun _ _ => trivial) (fun _ _ => trivial)

/-- Witness for C11: the int32 matrix `[[1,2],[3,4]]`, read as a reversed view (strides
`-2`, `-1` from address 3) of the buffer `[4,3,2,1]`, against the scalar 5 broadcast with
strides 0, written to a result with strides `2`, `1`; and a rank-0 launch of one element. -/
theorem strided_agrees_with_contig_witness :
    (SameOutput [2, 2] 0 [2, 1] 0
        (fun i => BitwiseXorFunctor.call .int32 (buffer [1, 2, 3, 4] (0 + (i : Int)))
          (buffer [5, 5, 5, 5] (0 + (i : Int))))
        (bitwise_xor_strided_impl .int32 .int32 [2, 2].prod [2, 2] [-2, -1] [0, 0] [2, 1]
          (buffer [4, 3, 2, 1]) 3 (buffer [5]) 0 0)
        (bitwise_xor_contig_impl .int32 .int32 8 [2, 2].prod (buffer [1, 2, 3, 4]) 0
          (buffer [5, 5, 5, 5]) 0 0) ∧
      SameOutput [2, 2] 0 [2, 1] 0
        (fun i => EqualFunctor.call (builtin_eq .int32) (buffer [1, 2, 3, 4] (0 + (i : Int)))
          (buffer [5, 5, 5, 5] (0 + (i : Int))))
        (equal_strided_impl .int32 .int32 [2, 2].prod [2, 2] [-2, -1] [0, 0] [2, 1]
          (buffer [4, 3, 2, 1]) 3 (buffer [5]) 0 0)
        (equal_contig_impl .int32 .int32 8 [2, 2].prod (buffer [1, 2, 3, 4]) 0
          (buffer [5, 5, 5, 5]) 0 0)) ∧
    (SameOutput [] 0 [] 0
        (fun i => BitwiseXorFunctor.call .int8 (buffer [-3] (0 + (i : Int)))
          (buffer [5] (0 + (i : Int))))
        (bitwise_xor_strided_impl .int8 .int8 ([] : List Nat).prod [] [] [] []
          (buffer [-3]) 0 (buffer [5]) 0 0)
        (bitwise_xor_contig_impl .int8 .int8 8 ([] : List Nat).prod (buffer [-3]) 0
          (buffer [5]) 0 0)) ∧
    bitwise_xor_strided_impl .int32 .int32 [2, 2].prod [2, 2] [-2, -1] [0, 0] [2, 1]
        (buffer [4, 3, 2, 1]) 3 (buffer [5]) 0 0 =
      some [(0, 4), (1, 7), (2, 6), (3, 1)] :=
  ⟨(strided_agrees_with_contig 8 [2, 2] [-2, -1] [0, 0] [2, 1] 3 0 0 0 0 0).1 .int32
      (buffer [4, 3, 2, 1]) (buffer [5]) (buffer [1, 2, 3, 4]) (buffer [5, 5, 5, 5])
      (Or.inr rfl)
      (by
        intro idx h
        rcases idx with _ | ⟨i, _ | ⟨j, _ | ⟨k, rest⟩⟩⟩ <;>
          simp only [in_shape, Bool.and_eq_true, decide_eq_true_eq, Bool.and_false,
            Bool.false_eq_true, and_false, and_true] at h
        obtain ⟨hi, hj⟩ := h
        interval_cases i <;> interval_cases j <;> decide)
      (by
        intro idx h
        rcases idx with _ | ⟨i, _ | ⟨j, _ | ⟨k, rest⟩⟩⟩ <;>
          simp only [in_shape, Bool.and_eq_true, decide_eq_true_eq, Bool.and_false,
            Bool.false_eq_true, and_false, and_true] at h
        obtain ⟨hi, hj⟩ := h
        interval_cases i <;> interval_cases j <;> decide)
      (by decide) (by decide),
   ((strided_agrees_with_contig 8 [] [] [] [] 0 0 0 0 0 0).1 .int8
      (buffer [-3]) (buffer [5]) (buffer [-3]) (buffer [5]) (Or.inr rfl)
      (by
        intro idx h
        rcases idx with _ | ⟨i, rest⟩
        · decide
        · simp [in_shape] at h)
      (by
        intro idx h
        rcases idx with _ | ⟨i, rest⟩
        · decide
        · simp [in_shape] at h)
      (by decide) (by decide)).1,
   by decide⟩

/-! ## `offloaded_array_mod` -/

/-- For a positive modulus the truncated remainder lies in `[0, mod)` for a non-negative
dividend and in `(-mod, 0]` for a negative one. -/
theorem tmod_bounds (x m : Int) (hm : 0 < m) :
    (0 ≤ x → 0 ≤ Int.tmod x m ∧ Int.tmod x m < m) ∧
    (x < 0 → -m < Int.tmod x m ∧ Int.tmod x m ≤ 0) := by
  obtain ⟨k, rfl⟩ := Int.eq_ofNat_of_zero_le (le_of_lt hm)
  have hk : 0 < k := by exact_mod_cast hm
  cases x with
  | ofNat n =>
    have h := Nat.mod_lt n hk
    have e : Int.tmod (Int.ofNat n) (k : Int) = ((n % k : Nat) : Int) := rfl
    rw [e]
    constructor
    · intro _
      constructor
      · exact Int.ofNat_nonneg _
      · exact_mod_cast h
    · intro hneg
      exact absurd hneg (by simp)
  | negSucc n =>
    have h := Nat.mod_lt (n + 1) hk
    have e : Int.tmod (Int.negSucc n) (k : Int) = -(((n + 1) % k : Nat) : Int) := rfl
    rw [e]
    constructor
    · intro hnn
      exact absurd hnn (by simp [Int.negSucc_eq]; omega)
    · intro _
      constructor <;> omega

/-- The truncated remainder differs from the dividend by a multiple of the divisor. -/
theorem tmod_dvd (x m : Int) : m ∣ x - Int.tmod x m := by
  rw [Int.tmod_def]
  exact ⟨x.tdiv m, by ring⟩

/-- With a positive modulus the builtin `%` is defined on every dividend. -/
theorem int64_rem_of_pos (x m : Int) (hm : 0 < m) : int64_rem x m = some (Int.tmod x m) := by
  unfold int64_rem
  rw [if_neg (by omega), if_neg (by omega)]

/-- One work-item of the kernel, at an index inside both buffers. -/
theorem kernel_step (m : Int) (hm : 0 < m) (a r : List Int) (k : Nat) (hk : k < a.length)
    (hr : k < r.length) :
    offloaded_array_mod.kernel m { a_buf := a, r_buf := r } k =
      some { a_buf := a, r_buf := r.set k (Int.tmod a[k] m) } := by
  unfold offloaded_array_mod.kernel
  simp only [List.getElem?_eq_getElem hk, int64_rem_of_pos _ m hm, if_pos hr]

/-- After the work-items below `k`, the input buffer is unchanged and the first `k` result
elements are the remainders of the first `k` input elements. -/
theorem parallel_for_upto (m : Int) (hm : 0 < m) (a res : List Int)
    (hlen : res.length = a.length) (k : Nat) (hk : k ≤ a.length) :
    (List.range k).foldlM (offloaded_array_mod.kernel m) { a_buf := a, r_buf := res } =
      some { a_buf := a,
             r_buf := (a.take k).map (fun x => Int.tmod x m) ++ res.drop k } := by
  induction k with
  | zero => simp
  | succ k ih =>
    have hk2 : k < a.length := hk
    have hk3 : k < res.length := hlen ▸ hk2
    rw [List.range_succ, List.foldlM_append, ih (Nat.le_of_lt hk2)]
    simp only [List.foldlM_cons, List.foldlM_nil, Option.some_bind, Option.bind_eq_bind]
    have hlenk : ((a.take k).map (fun x => Int.tmod x m) ++ res.drop k).length = res.length := by
      simp only [List.length_append, List.length_map, List.length_take, List.length_drop]
      omega
    rw [kernel_step m hm a _ k hk2 (hlenk ▸ hk3)]
    simp only [Option.some_bind, pure, Option.some.injEq, ModBuffers.mk.injEq, true_and]
    have hl : ((a.take k).map (fun x => Int.tmod x m)).length = k := by
      simp only [List.length_map, List.length_take]
      omega
    rw [List.set_append_right _ _ (by omega), hl, Nat.sub_self,
      List.drop_eq_getElem_cons hk3, List.set_cons_zero, List.take_succ,
      List.getElem?_eq_getElem hk2]
    simp only [Option.toList, List.map_append, List.map_cons, List.map_nil, List.append_assoc,
      List.singleton_append]

/-- For a positive modulus the launch leaves the input buffer as it is and fills the result
buffer with the remainders. -/
theorem parallel_for_eq (m : Int) (hm : 0 < m) (a res : List Int)
    (hlen : res.length = a.length) :
    offloaded_array_mod.parallel_for a.length m { a_buf := a, r_buf := res } =
      some { a_buf := a, r_buf := a.map (fun x => Int.tmod x m) } := by
  unfold offloaded_array_mod.parallel_for
  rw [parallel_for_upto m hm a res hlen a.length (Nat.le_refl _)]
  simp [← hlen]

/-- Closed form of `offloaded_array_mod` on a valid queue, a vector and a positive modulus. -/
theorem offloaded_array_mod_of_pos (array : PyArray) (m : Int) (uninit : Nat → Int)
    (hnd : array.ndim = 1) (hm : 0 < m) :
    offloaded_array_mod true array m uninit =
      Outcome.ok (array, { ndim := 1, data := array.data.map (fun x => Int.tmod x m) }) := by
  unfold offloaded_array_mod
  rw [if_neg (by decide), if_neg (by simp [hnd]), if_neg (by omega)]
  simp only []
  rw [parallel_for_eq m hm array.data _ (by simp)]


/-- C12, as stated, fails: on a valid queue and the vector `[1, 2, 3]` the modulus 0, which
is not negative, is rejected with the error "Modulus must be non-negative". -/
theorem offloaded_array_mod_zero_counterexample :
    ¬ (offloaded_array_mod true { ndim := 1, data := [1, 2, 3] } 0 (fun _ => 0) =
          Outcome.runtime_error "Modulus must be non-negative" ↔ (0 : Int) < 0) ∧
    offloaded_array_mod true { ndim := 1, data := [1, 2, 3] } 0 (fun _ => 0) =
      Outcome.runtime_error "Modulus must be non-negative" := by
  decide

/-- C12, amended: `offloaded_array_mod` requires the modulus to be positive. Given a valid
queue and a one-dimensional array, it fails with the runtime error of the modulus check (the
one whose text is "Modulus must be non-negative") if and only if `mod ≤ 0`, `mod = 0`
included, and it accepts every positive modulus and returns an array. -/
theorem offloaded_array_mod_rejects_iff (array : PyArray) (mod : Int) (uninit : Nat → Int)
    (hnd : array.ndim = 1) :
    (offloaded_array_mod true array mod uninit =
        Outcome.runtime_error "Modulus must be non-negative" ↔ mod ≤ 0) ∧
    (0 < mod → ∃ res, offloaded_array_mod true array mod uninit = Outcome.ok (array, res)) ∧
    (mod = 0 → offloaded_array_mod true array mod uninit =
        Outcome.runtime_error "Modulus must be non-negative") := by
  have hneg : mod ≤ 0 → offloaded_array_mod true array mod uninit =
      Outcome.runtime_error "Modulus must be non-negative" := by
    intro h
    unfold offloaded_array_mod
    rw [if_neg (by decide), if_neg (by simp [hnd]), if_pos h]
  refine ⟨⟨?_, hneg⟩, ?_, fun h => hneg (le_of_eq h)⟩
  · intro h
    by_contra hpos
    rw [offloaded_array_mod_of_pos array mod uninit hnd (by omega)] at h
    cases h
  · intro hpos
    exact ⟨_, offloaded_array_mod_of_pos array mod uninit hnd hpos⟩

/-- Witness for the amended C12: the vector `[7, -7, 0, 5]` with the moduli 3 and 0. -/
theorem offloaded_array_mod_rejects_iff_witness :
    (∃ res, offloaded_array_mod true { ndim := 1, data := [7, -7, 0, 5] } 3 (fun _ => 0) =
        Outcome.ok ({ ndim := 1, data := [7, -7, 0, 5] }, res)) ∧
    offloaded_array_mod true { ndim := 1, data := [7, -7, 0, 5] } 0 (fun _ => 0) =
      Outcome.runtime_error "Modulus must be non-negative" :=
  ⟨(offloaded_array_mod_rejects_iff { ndim := 1, data := [7, -7, 0, 5] } 3 (fun _ => 0)
      rfl).2.1 (by decide),
   (offloaded_array_mod_rejects_iff { ndim := 1, data := [7, -7, 0, 5] } 0 (fun _ => 0)
      rfl).2.2 rfl⟩

/-- C13: `offloaded_array_mod` computes the modular reduction of its input. For every
one-dimensional int64 array `a` of length `n` and every modulus that passes validation
(`0 < mod`), no remainder is taken by zero (each `a[i] % mod` is defined), the input array
is unchanged, and the result is a new one-dimensional array `r` of length `n` with
`r[i] = a[i] % mod`, the remainder of the division that truncates towards zero, whatever
the fresh array held before. So `r[i]` is congruent to `a[i]` modulo `mod`, `|r[i]| < mod`,
and `r[i]` is zero or has the sign of `a[i]`: a negative input gives a non-positive result,
which lies in `[0, mod)` only when it is zero. -/
theorem offloaded_array_mod_computes (array : PyArray) (mod : Int) (uninit : Nat → Int)
    (hnd : array.ndim = 1) (hmod : 0 < mod)
    (hmodr : InRange .int64 mod) :
    mod ≠ 0 ∧
    (∀ x ∈ array.data, int64_rem x mod = some (Int.tmod x mod)) ∧
    ∃ r : List Int,
      offloaded_array_mod true array mod uninit = Outcome.ok (array, { ndim := 1, data := r }) ∧
      r.length = array.data.length ∧
      ∀ (i : Nat) (hi : i < array.data.length) (hr : i < r.length),
        int64_rem (array.data.get ⟨i, hi⟩) mod = some (r.get ⟨i, hr⟩) ∧
        r.get ⟨i, hr⟩ = Int.tmod (array.data.get ⟨i, hi⟩) mod ∧
        r.get ⟨i, hr⟩ ≡ array.data.get ⟨i, hi⟩ [ZMOD mod] ∧
        |r.get ⟨i, hr⟩| < mod ∧
        InRange .int64 (r.get ⟨i, hr⟩) ∧
        (r.get ⟨i, hr⟩ = 0 ∨ (0 < r.get ⟨i, hr⟩ ∧ 0 < array.data.get ⟨i, hi⟩) ∨
          (r.get ⟨i, hr⟩ < 0 ∧ array.data.get ⟨i, hi⟩ < 0)) ∧
        (array.data.get ⟨i, hi⟩ < 0 → r.get ⟨i, hr⟩ ≤ 0 ∧
          (0 ≤ r.get ⟨i, hr⟩ ∧ r.get ⟨i, hr⟩ < mod → r.get ⟨i, hr⟩ = 0)) := by
  refine ⟨by omega, fun x _ => int64_rem_of_pos x mod hmod,
    array.data.map (fun x => Int.tmod x mod),
    offloaded_array_mod_of_pos array mod uninit hnd hmod, by simp, ?_⟩
  intro i hi hr
  have hget : (array.data.map (fun x => Int.tmod x mod)).get ⟨i, hr⟩ =
      Int.tmod (array.data.get ⟨i, hi⟩) mod := by
    simp
  rw [hget]
  have hb := tmod_bounds (array.data.get ⟨i, hi⟩) mod hmod
  have hd := tmod_dvd (array.data.get ⟨i, hi⟩) mod
  have hrange : mod < 2 ^ 63 := by
    have := hmodr
    simp only [InRange, ElemType.bits, ElemType.is_signed, reduceCtorEq, if_false, if_true,
      Nat.reduceSub] at this
    exact this.2
  refine ⟨int64_rem_of_pos _ mod hmod, rfl, ?_, ?_, ?_, ?_, ?_⟩
  · exact Int.modEq_iff_dvd.mpr hd
  · rw [abs_lt]
    rcases Int.lt_or_le (array.data.get ⟨i, hi⟩) 0 with h | h
    · have := hb.2 h
      omega
    · have := hb.1 h
      omega
  · simp only [InRange, ElemType.bits, ElemType.is_signed, reduceCtorEq, if_false, if_true,
      Nat.reduceSub]
    rcases Int.lt_or_le (array.data.get ⟨i, hi⟩) 0 with h | h
    · have := hb.2 h
      omega
    · have := hb.1 h
      omega
  · rcases Int.lt_or_le (array.data.get ⟨i, hi⟩) 0 with h | h
    · have := hb.2 h
      omega
    · by_cases hz : array.data.get ⟨i, hi⟩ = 0
      · rw [hz, Int.zero_tmod]
        exact Or.inl rfl
      · have := hb.1 h
        omega
  · intro h
    have := hb.2 h
    omega

/-- Witness for C13: the vector `[7, -7, 0, 5]` and the modulus 3 give `[1, -1, 0, 2]`. -/
theorem offloaded_array_mod_computes_witness :
    ((3 : Int) ≠ 0 ∧
      ∀ x ∈ [(7 : Int), -7, 0, 5], int64_rem x 3 = some (Int.tmod x 3)) ∧
    offloaded_array_mod true { ndim := 1, data := [7, -7, 0, 5] } 3 (fun _ => 99) =
      Outcome.ok ({ ndim := 1, data := [7, -7, 0, 5] }, { ndim := 1, data := [1, -1, 0, 2] }) :=
  ⟨⟨(offloaded_array_mod_computes { ndim := 1, data := [7, -7, 0, 5] } 3 (fun _ => 99) rfl
        (by decide) (by decide)).1,
    (offloaded_array_mod_computes { ndim := 1, data := [7, -7, 0, 5] } 3 (fun _ => 99) rfl
        (by decide) (by decide)).2.1⟩,
   by decide⟩


/-! ## The radix-sort dispatch vectors -/

/-- The entries of the two vectors at the ordinal of `T` are what the two factories return
for `T`. -/
theorem radix_sort_dispatch_vectors_entry (is_defined : ElemType → Bool) (t : Nat)
    (T : ElemType) (hT : typenum_order.get? t = some T) :
    (init_radix_sort_dispatch_vectors
        is_defined).ascending_radix_sort_contig_dispatch_vector.getD t none =
      AscendingRadixSortContigFactory.get is_defined T ∧
    (init_radix_sort_dispatch_vectors
        is_defined).descending_radix_sort_contig_dispatch_vector.getD t none =
      DescendingRadixSortContigFactory.get is_defined T := by
  rw [List.get?_eq_getElem?] at hT
  constructor
  · simp only [init_radix_sort_dispatch_vectors,
      DispatchVectorBuilder.populate_dispatch_vector, List.getD_eq_getElem?_getD,
      List.getElem?_map]
    rw [hT]
    rfl
  · simp only [init_radix_sort_dispatch_vectors,
      DispatchVectorBuilder.populate_dispatch_vector, List.getD_eq_getElem?_getD,
      List.getElem?_map]
    rw [hT]
    rfl

/-- C14: after `init_radix_sort_dispatch_vectors`, every element-type index `t` below
`num_types` is the ordinal of an element type `T`, and the entry of the ascending vector at
`t` is `nullptr` if and only if `RadixSortSupportVector<T>` is not defined, and the same
holds for the descending vector; so the two vectors are null at the same indices, and where
they are not null they hold `radix_sort_axis1_contig_impl<T, true>` and
`radix_sort_axis1_contig_impl<T, false>`. -/
theorem radix_sort_dispatch_vectors (is_defined : ElemType → Bool) (t : Nat)
    (ht : t < num_types) :
    ∃ T : ElemType, typenum_order.get? t = some T ∧
    (((init_radix_sort_dispatch_vectors
        is_defined).ascending_radix_sort_contig_dispatch_vector.getD t none = none) ↔
      is_defined T = false) ∧
    (((init_radix_sort_dispatch_vectors
        is_defined).descending_radix_sort_contig_dispatch_vector.getD t none = none) ↔
      is_defined T = false) ∧
    (((init_radix_sort_dispatch_vectors
        is_defined).ascending_radix_sort_contig_dispatch_vector.getD t none = none) ↔
      ((init_radix_sort_dispatch_vectors
        is_defined).descending_radix_sort_contig_dispatch_vector.getD t none = none)) ∧
    (is_defined T = true →
      (init_radix_sort_dispatch_vectors
          is_defined).ascending_radix_sort_contig_dispatch_vector.getD t none =
        some (SortFn.radix_sort_axis1_contig_impl T true) ∧
      (init_radix_sort_dispatch_vectors
          is_defined).descending_radix_sort_contig_dispatch_vector.getD t none =
        some (SortFn.radix_sort_axis1_contig_impl T false)) := by
  have hT : typenum_order.get? t = some (typenum_order.get ⟨t, ht⟩) :=
    List.get?_eq_get ht
  refine ⟨typenum_order.get ⟨t, ht⟩, hT, ?_⟩
  have he := radix_sort_dispatch_vectors_entry is_defined t _ hT
  rw [he.1, he.2]
  unfold AscendingRadixSortContigFactory.get DescendingRadixSortContigFactory.get
  cases h : is_defined (typenum_order.get ⟨t, ht⟩) <;> simp

/-- Witness for C14: index 5 is below `num_types`, so it is the ordinal of a type for which
the two entries are null together. -/
theorem radix_sort_dispatch_vectors_witness :
    ∃ T : ElemType, typenum_order.get? 5 = some T ∧
      (((init_radix_sort_dispatch_vectors
          ElemType.is_integer).ascending_radix_sort_contig_dispatch_vector.getD 5 none = none) ↔
        ((init_radix_sort_dispatch_vectors
          ElemType.is_integer).descending_radix_sort_contig_dispatch_vector.getD 5 none =
            none)) :=
  match radix_sort_dispatch_vectors ElemType.is_integer 5 (by decide) with
  | ⟨T, hT, h⟩ => ⟨T, hT, h.2.2.1⟩


/-! ## Algebra of the scalar functors -/

/-- The values of `bool` are 0 and 1. -/
theorem InRange_bool_cases (v : Int) (h : InRange .bool v) : v = 0 ∨ v = 1 := by
  simp only [InRange, if_true] at h
  omega

/-- Zero is a value of every boolean or integer type. -/
theorem InRange_zero (T : ElemType) (hT : T = .bool ∨ T.is_integer = true) :
    InRange T 0 := by
  cases T <;> first
    | exact absurd hT (by decide)
    | decide

/-- The bit pattern of zero is zero. -/
theorem toBits_zero (w : Nat) : toBits w 0 = 0 := by
  simp [toBits]

/-- Two values of an integer type with the same bit pattern are the same value. -/
theorem eq_of_toBits_eq (T : ElemType) (hT : T.is_integer = true) (u v : Int)
    (hu : InRange T u) (hv : InRange T v) (h : toBits T.bits u = toBits T.bits v) :
    u = v := by
  rw [← ofBits_toBits T hT u hu, ← ofBits_toBits T hT v hv, h]

/-- On two values of an integer type the scalar functor gives a value of the type whose bit
pattern is the exclusive or of the two patterns. -/
theorem BitwiseXorFunctor_call_bits (T : ElemType) (hT : T.is_integer = true) (a b : Int)
    (ha : InRange T a) (hb : InRange T b) :
    InRange T (BitwiseXorFunctor.call T a b) ∧
    toBits T.bits (BitwiseXorFunctor.call T a b) = toBits T.bits a ^^^ toBits T.bits b := by
  rw [BitwiseXorFunctor_call_eq T hT a b ha hb]
  exact ⟨InRange_xor T hT a b ha hb, toBits_xor _ a b⟩

/-- C15: for every type `T` on which bitwise_xor is defined (`bool` and the eight integer
types) the scalar `BitwiseXorFunctor<T, T, T>` is commutative, associative and self-inverse
with identity zero (`false` for `bool`): for all values `a`, `b`, `c` of `T`,
`f(a,b) = f(b,a)`, `f(f(a,b),c) = f(a,f(b,c))`, `f(a,0) = a`, `f(a,a) = 0` and
`f(f(a,b),b) = a`; the results are again values of `T`. -/
theorem BitwiseXorFunctor_laws (T : ElemType) (a b c : Int)
    (hT : T = .bool ∨ T.is_integer = true)
    (ha : InRange T a) (hb : InRange T b) (hc : InRange T c) :
    BitwiseXorFunctor.call T a b = BitwiseXorFunctor.call T b a ∧
    BitwiseXorFunctor.call T (BitwiseXorFunctor.call T a b) c =
      BitwiseXorFunctor.call T a (BitwiseXorFunctor.call T b c) ∧
    BitwiseXorFunctor.call T a 0 = a ∧
    BitwiseXorFunctor.call T a a = 0 ∧
    BitwiseXorFunctor.call T (BitwiseXorFunctor.call T a b) b = a ∧
    InRange T (BitwiseXorFunctor.call T a b) ∧
    InRange T 0 ∧ (0 : Int) = ofBool false := by
  rcases hT with hT | hT
  · subst hT
    rcases InRange_bool_cases a ha with rfl | rfl <;>
      rcases InRange_bool_cases b hb with rfl | rfl <;>
        rcases InRange_bool_cases c hc with rfl | rfl <;> decide
  · have h0 : InRange T 0 := InRange_zero T (Or.inr hT)
    have hab := BitwiseXorFunctor_call_bits T hT a b ha hb
    have hba := BitwiseXorFunctor_call_bits T hT b a hb ha
    have hbc := BitwiseXorFunctor_call_bits T hT b c hb hc
    have habc := BitwiseXorFunctor_call_bits T hT _ c hab.1 hc
    have habc2 := BitwiseXorFunctor_call_bits T hT a _ ha hbc.1
    have ha0 := BitwiseXorFunctor_call_bits T hT a 0 ha h0
    have haa := BitwiseXorFunctor_call_bits T hT a a ha ha
    have habb := BitwiseXorFunctor_call_bits T hT _ b hab.1 hb
    refine ⟨?_, ?_, ?_, ?_, ?_, hab.1, h0, rfl⟩
    · apply eq_of_toBits_eq T hT _ _ hab.1 hba.1
      rw [hab.2, hba.2, Nat.xor_comm]
    · apply eq_of_toBits_eq T hT _ _ habc.1 habc2.1
      rw [habc.2, habc2.2, hab.2, hbc.2, Nat.xor_assoc]
    · apply eq_of_toBits_eq T hT _ _ ha0.1 ha
      rw [ha0.2, toBits_zero, Nat.xor_zero]
    · apply eq_of_toBits_eq T hT _ _ haa.1 h0
      rw [haa.2, toBits_zero, Nat.xor_self]
    · apply eq_of_toBits_eq T hT _ _ habb.1 ha
      rw [habb.2, hab.2, Nat.xor_assoc, Nat.xor_self, Nat.xor_zero]

/-- Witness for C15 at `int16` with negative operands. -/
theorem BitwiseXorFunctor_laws_witness :
    BitwiseXorFunctor.call .int16 (-300) 77 = BitwiseXorFunctor.call .int16 77 (-300) ∧
    BitwiseXorFunctor.call .int16 (BitwiseXorFunctor.call .int16 (-300) 77) (-1) =
      BitwiseXorFunctor.call .int16 (-300) (BitwiseXorFunctor.call .int16 77 (-1)) :=
  ⟨(BitwiseXorFunctor_laws .int16 (-300) 77 (-1) (Or.inr rfl) (by decide) (by decide)
      (by decide)).1,
   (BitwiseXorFunctor_laws .int16 (-300) 77 (-1) (Or.inr rfl) (by decide) (by decide)
      (by decide)).2.1⟩

/-- C16: the two functors are consistent on every type on which both are defined. For `T`
among `bool` and the eight integer types and all values `a`, `b` of `T`,
`EqualFunctor<T, T, bool>(a, b)` is true if and only if `BitwiseXorFunctor<T, T, T>(a, b)`
is the zero of `T`; for `bool`, `bitwise_xor(a, b)` is the logical negation of
`equal(a, b)`. -/
theorem EqualFunctor_iff_BitwiseXorFunctor_zero (T : ElemType) (a b : Int)
    (hT : T = .bool ∨ T.is_integer = true) (ha : InRange T a) (hb : InRange T b) :
    (EqualFunctor.call (builtin_eq T) a b = ofBool true ↔ BitwiseXorFunctor.call T a b = 0) ∧
    (EqualFunctor.call (builtin_eq T) a b = ofBool false ↔
      BitwiseXorFunctor.call T a b ≠ 0) ∧
    (T = .bool →
      EqualFunctor.call (builtin_eq T) a b = ofBool (builtin_eq T a b) ∧
      BitwiseXorFunctor.call T a b = ofBool (!(builtin_eq T a b))) := by
  have heq : EqualFunctor.call (builtin_eq T) a b = ofBool (decide (a = b)) := by
    unfold EqualFunctor.call
    rw [builtin_eq_of_InRange T hT a b ha hb]
  have hxor : BitwiseXorFunctor.call T a b = 0 ↔ a = b := by
    rcases hT with hT | hT
    · subst hT
      rcases InRange_bool_cases a ha with rfl | rfl <;>
        rcases InRange_bool_cases b hb with rfl | rfl <;> decide
    · have hab := BitwiseXorFunctor_call_bits T hT a b ha hb
      have haa := BitwiseXorFunctor_call_bits T hT a a ha ha
      have h0 : InRange T 0 := InRange_zero T (Or.inr hT)
      constructor
      · intro h
        have hbits := hab.2
        rw [h, toBits_zero] at hbits
        exact eq_of_toBits_eq T hT a b ha hb (Nat.xor_eq_zero.mp hbits.symm)
      · intro h
        subst h
        apply eq_of_toBits_eq T hT _ _ haa.1 h0
        rw [haa.2, toBits_zero, Nat.xor_self]
  refine ⟨?_, ?_, ?_⟩
  · rw [heq, hxor]
    by_cases h : a = b <;> simp [ofBool, h]
  · rw [heq, Ne, hxor]
    by_cases h : a = b <;> simp [ofBool, h]
  · intro hb0
    subst hb0
    refine ⟨rfl, ?_⟩
    unfold BitwiseXorFunctor.call builtin_ne builtin_eq
    rw [if_pos rfl]
    by_cases h : convert (promote .bool) a = convert (promote .bool) b <;> simp [h]

/-- Witness for C16 at `uint8` (255 against 255 and against 254) and at `bool`. -/
theorem EqualFunctor_iff_BitwiseXorFunctor_zero_witness :
    (EqualFunctor.call (builtin_eq .uint8) 255 255 = ofBool true ↔
      BitwiseXorFunctor.call .uint8 255 255 = 0) ∧
    (EqualFunctor.call (builtin_eq .uint8) 255 254 = ofBool false ↔
      BitwiseXorFunctor.call .uint8 255 254 ≠ 0) ∧
    (EqualFunctor.call (builtin_eq .bool) 1 0 = ofBool (builtin_eq .bool 1 0) ∧
      BitwiseXorFunctor.call .bool 1 0 = ofBool (!(builtin_eq .bool 1 0))) :=
  ⟨(EqualFunctor_iff_BitwiseXorFunctor_zero .uint8 255 255 (Or.inr rfl) (by decide)
      (by decide)).1,
   (EqualFunctor_iff_BitwiseXorFunctor_zero .uint8 255 254 (Or.inr rfl) (by decide)
      (by decide)).2.1,
   (EqualFunctor_iff_BitwiseXorFunctor_zero .bool 1 0 (Or.inl rfl) (by decide)
      (by decide)).2.2 rfl⟩

end Dpctl
